import Mathlib

/-!
Verification of the evaluation core of the PEX (Presentation Exchange) library.

The development shallowly embeds the TypeScript sources:
  * `lib/evaluation/predicateRelatedFieldEvaluationHandler.ts` — the
    `PredicateRelatedFieldEvaluationHandler` class (predicate conversion of
    `FilterEvaluation` results);
  * `lib/PEX.ts` — the `PEX` facade (`evaluatePresentation`,
    `evaluateCredentials`, `selectFrom`, `constructPresentation`,
    `validateDefinition`);
  * the limit-disclosure projection, whose handler implementation is not part
    of the provided sources and is therefore modelled from the specification
    (definitions carrying a `Modelled from the spec:` doc comment).

JavaScript runtime values are embedded by the inductive type `JSON` below.
Arrays and objects are encoded as cons chains (`acons`/`anil`,
`ocons`/`onil`) rather than nested `List`s so that every function in the
development is structurally recursive and kernel-computable, and so that
decidable equality can be derived.  `jarr` and `jobj` build values from
ordinary lists.
-/

/-- Embedding of a JavaScript/JSON runtime value.  Arrays are `acons`/`anil`
chains, objects are ordered `ocons`/`onil` chains of key-value pairs (JS
objects preserve insertion order of string keys, which the embedding keeps). -/
inductive JSON where
  | null : JSON
  | bool (b : Bool) : JSON
  | num (n : Int) : JSON
  | str (s : String) : JSON
  | anil : JSON
  | acons (head : JSON) (tail : JSON) : JSON
  | onil : JSON
  | ocons (key : String) (val : JSON) (tail : JSON) : JSON
deriving DecidableEq

/-- Builds an embedded JS array from a list of values. -/
def jarr : List JSON → JSON := fun l => l.foldr .acons .anil

/-- Builds an embedded JS object from an ordered list of key-value pairs. -/
def jobj : List (String × JSON) → JSON := fun l => l.foldr (fun p t => .ocons p.1 p.2 t) .onil

/-- The elements of an embedded array (empty for non-arrays). -/
def jsElems : JSON → List JSON
  | .acons h t => h :: jsElems t
  | _ => []

/-- JavaScript property read `j[key]`: `some` the value of the first
matching key of an object, `none` (i.e. `undefined`) otherwise. -/
def getField : JSON → String → Option JSON
  | .ocons k v t, key => if k = key then some v else getField t key
  | _, _ => none

/-- JavaScript property write `j[key] = v`: updates the first occurrence of
`key` in place, appends the key otherwise.  Writing a property on a
non-object value is a silent no-op (non-strict JS assignment semantics). -/
def setField : JSON → String → JSON → JSON
  | .ocons k v t, key, val => if k = key then .ocons k val t else .ocons k v (setField t key val)
  | .onil, key, val => .ocons key val .onil
  | j, _, _ => j

/-- JavaScript truthiness of a value: `null`, `false`, `0` and `""` are
falsy; every array and object (including empty ones) is truthy. -/
def truthy : JSON → Bool
  | .null => false
  | .bool b => b
  | .num n => n != 0
  | .str s => s != ""
  | _ => true

/-- Truthiness of a possibly-`undefined` value (`none` models `undefined`). -/
def truthyOpt : Option JSON → Bool
  | none => false
  | some j => truthy j

/-- JavaScript `ToString` coercion, as used by `x + '.'` string
concatenation: arrays join their elements with `","` (with `null` elements
rendered empty, recursively), objects render as `"[object Object]"`. -/
def jsToString : JSON → String
  | .null => "null"
  | .bool b => if b then "true" else "false"
  | .num n => toString n
  | .str s => s
  | .anil => ""
  | .acons h t =>
      (match h with
       | .null => ""
       | h' => jsToString h') ++
      (match t with
       | .anil => ""
       | t' => "," ++ jsToString t')
  | .onil => "[object Object]"
  | .ocons _ _ _ => "[object Object]"

/-- The list a JS `for (i = 0; i < x.length; i++) ... x[i]` loop iterates
over: the elements for an array, the single-character strings for a string,
and nothing for any other value (whose `.length` is `undefined`). -/
def jsIndexedElems : JSON → List JSON
  | .str s => s.data.map (fun c => .str (String.singleton c))
  | .acons h t => h :: jsIndexedElems t
  | _ => []

/-- An object whose keys are the decimal indices of the given elements, as
produced by spreading an array or a string into an object literal. -/
def objOfIndexed (l : List JSON) : JSON :=
  jobj (l.enum.map (fun p => (toString p.1, p.2)))

/-- Copy of the own properties of an object chain (normalising the tail),
used by `jsSpread`. -/
def spreadObj : JSON → JSON
  | .ocons k v t => .ocons k v (spreadObj t)
  | _ => .onil

/-- JavaScript object spread `{ ...x }`: copies an object's own properties,
turns arrays and strings into index-keyed objects, and yields `{}` for
`undefined`, `null` and the remaining primitives. -/
def jsSpread : Option JSON → JSON
  | some (.ocons k v t) => .ocons k v (spreadObj t)
  | some (.acons h t) => objOfIndexed (h :: jsElems t)
  | some (.str s) => objOfIndexed (s.data.map (fun c => .str (String.singleton c)))
  | _ => .onil

/-- An object chain that is well formed, i.e. terminated by `onil`.  Every
object built by `jobj`, `jsSpread` or `setField` is of this shape. -/
def isObjWF : JSON → Bool
  | .onil => true
  | .ocons _ _ t => isObjWF t
  | _ => false

/-- Whether a value is a JS array. -/
def isArr : JSON → Bool
  | .anil => true
  | .acons _ _ => true
  | _ => false

/-- Occurrences of a value in a list of embedded values (the multiplicity
used to state that pushes guarded by `includes` do not duplicate entries). -/
def countJSON (l : List JSON) (x : JSON) : Nat := l.countP (fun j => decide (j = x))

/-- Helper for `jsIndexOf`: first index at which `needle` occurs in `hay`. -/
def jsIndexOfAux : List Char → List Char → Nat → Option Nat
  | hay, needle, i =>
    if needle.isPrefixOf hay then some i
    else
      match hay with
      | [] => none
      | _ :: t => jsIndexOfAux t needle (i + 1)

/-- JavaScript `String.prototype.indexOf`: the first index of `needle` in
`s`, or `-1` when it does not occur. -/
def jsIndexOf (s needle : String) : Int :=
  match jsIndexOfAux s.data needle.data 0 with
  | some n => (n : Int)
  | none => -1

/-- JavaScript `String.prototype.substring(a, b)`: both bounds are clamped
into `[0, length]` and swapped when out of order. -/
def jsSubstring (s : String) (a b : Int) : String :=
  let n : Int := (s.length : Int)
  let a2 := max 0 (min a n)
  let b2 := max 0 (min b n)
  let lo := min a2 b2
  let hi := max a2 b2
  String.mk ((s.data.drop lo.toNat).take (hi - lo).toNat)

/-- JavaScript `String.prototype.substring(a)` (one-argument form). -/
def jsSubstringFrom (s : String) (a : Int) : String :=
  jsSubstring s a (s.length : Int)

/-- Digits accepted by `parseInt` with radix 10. -/
def isDecDigit (c : Char) : Bool := '0' ≤ c && c ≤ '9'

/-- Helper for `jsParseInt`: value of the longest leading run of decimal
digits, `none` when there is no digit. -/
def jsParseDigits : List Char → Option Nat → Option Nat
  | [], acc => acc
  | c :: rest, acc =>
    if isDecDigit c then
      jsParseDigits rest (some ((acc.getD 0) * 10 + (c.toNat - '0'.toNat)))
    else acc

/-- JavaScript `parseInt(s)` restricted to decimal inputs: skips leading
whitespace, consumes an optional sign and then the longest run of decimal
digits; `none` models the `NaN` result.  (The hexadecimal `0x` prefix of
`parseInt` cannot produce a different answer on the bracket-delimited
decimal indices this development applies it to.) -/
def jsParseInt (s : String) : Option Int :=
  let trimmed := s.data.dropWhile (fun c => c = ' ' || c = '\t' || c = '\n' || c = '\r')
  match trimmed with
  | '-' :: rest => (jsParseDigits rest none).map (fun n => -(n : Int))
  | '+' :: rest => (jsParseDigits rest none).map (fun n => (n : Int))
  | rest => (jsParseDigits rest none).map (fun n => (n : Int))


/-!
Data model (from `@sphereon/pe-models` as used by the embedded sources).
Only the members the embedded code reads are modelled; optional members are
`Option`s with `none` playing the role of `undefined`.
-/

/-- The `Optionality` enumeration (`'required' | 'preferred'`). -/
inductive Optionality where
  | required : Optionality
  | preferred : Optionality
deriving DecidableEq

/-- The `Status` enumeration of `ConstraintUtils` (`'info' | 'warn' | 'error'`). -/
inductive Status where
  | info : Status
  | warn : Status
  | error : Status
deriving DecidableEq

namespace Pe

/-- A constraint `Field` of `@sphereon/pe-models` (namespaced as `Pe.Field`
because Lean's root `Field` is taken): alternative JSONPath expressions, an
optional JSON-Schema filter and an optional predicate directive. -/
structure Field where
  id : Option String := none
  path : List String := []
  purpose : Option String := none
  filter : Option JSON := none
  predicate : Option Optionality := none
deriving DecidableEq

end Pe

/-- An input descriptor's `Constraints` block (members read by the embedded
handlers). -/
structure Constraints where
  limit_disclosure : Option Optionality := none
  fields : Option (List Pe.Field) := none
deriving DecidableEq

/-- An `InputDescriptor` of a presentation definition. -/
structure InputDescriptor where
  id : String := ""
  group : List String := []
  constraints : Option Constraints := none
deriving DecidableEq

/-- A `PresentationDefinition`. -/
structure PresentationDefinition where
  id : String := ""
  input_descriptors : List InputDescriptor := []
deriving DecidableEq

/-- A `HandlerCheckResult` log entry.  The `payload` is an arbitrary JS
value (`none` models an absent/`undefined` payload). -/
structure HandlerCheckResult where
  input_descriptor_path : String
  verifiable_credential_path : String
  evaluator : String
  status : Status
  message : String
  payload : Option JSON := none
deriving DecidableEq

/-- The expression `results[resultIdx].payload.result` (an `undefined`
payload or a missing `result` member both yield `undefined`). -/
def payloadResult (r : HandlerCheckResult) : Option JSON :=
  r.payload.bind (fun p => getField p "result")

/-- The expression `results[resultIdx].payload.result.path`. -/
def payloadResultPath (r : HandlerCheckResult) : Option JSON :=
  (payloadResult r).bind (fun res => getField res "path")

namespace PredicateRelatedField

/-- `PredicateRelatedFieldEvaluationHandler.getName()`. -/
def getName : String := "PredicateRelatedField"

/-- `retrieveResultInputDescriptorIdx` (lines 74-81 of the handler): locates
`"$.input_descriptors["` in the path, takes the substring up to the next
`"]"` and parses it with `parseInt`; `none` models the `NaN` outcome. -/
def retrieveResultInputDescriptorIdx (input_descriptor_path : String) : Option Int :=
  let inputDescriptorText := "$.input_descriptors["
  let startIdx := jsIndexOf input_descriptor_path inputDescriptorText
  let startWithIdx := jsSubstringFrom input_descriptor_path (startIdx + (inputDescriptorText.length : Int))
  let endIdx := jsIndexOf startWithIdx "]"
  let idx := jsSubstring startWithIdx 0 endIdx
  jsParseInt idx

/-- `concatenatePath` (lines 83-89 of the handler): appends every indexed
element of `path` followed by `'.'` to an accumulator and drops the final
character (`substring(0, length - 1)`). -/
def concatenatePath (path : JSON) : String :=
  let completePath := String.join ((jsIndexedElems path).map (fun e => jsToString e ++ "."))
  jsSubstring completePath 0 ((completePath.length : Int) - 1)

/-- The strict equality `input_descriptor_idx === resultInputDescriptorIdx`
between the loop index and the parsed index (`NaN`, i.e. `none`, is equal to
nothing). -/
def strictEqualsIdx (parsed : Option Int) (idx : Nat) : Bool :=
  match parsed with
  | some n => n == (idx : Int)
  | none => false

/-- The guard of `examinePredicateForFilterEvaluationResult` (lines 41-49):
`payload && payload.result && payload.result.path` are truthy, the entry
comes from `FilterEvaluation`, the parsed descriptor index strictly equals
the descriptor under examination, the field's `predicate` is set (truthy)
and the field's `path` list contains the concatenated result path. -/
def examineCondition (input_descriptor_idx : Nat) (fields : List Pe.Field) (fieldIdx : Nat)
    (r : HandlerCheckResult) : Bool :=
  truthyOpt r.payload &&
  truthyOpt (payloadResult r) &&
  truthyOpt (payloadResultPath r) &&
  (r.evaluator == "FilterEvaluation") &&
  strictEqualsIdx (retrieveResultInputDescriptorIdx r.input_descriptor_path) input_descriptor_idx &&
  (match fields[fieldIdx]? with
   | some f =>
       f.predicate.isSome &&
       f.path.contains (concatenatePath ((payloadResultPath r).getD .null))
   | none => false)

/-- The entry pushed by `examinePredicateForFilterEvaluationResult`
(lines 50-70): `evaluationResult` is the shallow copy
`{ ...results[resultIdx].payload.result }`; when the field's predicate is
not `required` its `value` member is overwritten with the Boolean `true`. -/
def pushedResult (input_descriptor_idx : Nat) (fields : List Pe.Field) (fieldIdx : Nat)
    (r : HandlerCheckResult) : HandlerCheckResult :=
  let evaluationResult := jsSpread (payloadResult r)
  let isRequired : Bool :=
    match fields[fieldIdx]? with
    | some f => f.predicate == some Optionality.required
    | none => false
  { input_descriptor_path := "$.input_descriptors[" ++ toString input_descriptor_idx ++ "]"
    verifiable_credential_path := r.verifiable_credential_path
    evaluator := getName
    status := Status.info
    message := "Input candidate valid for presentation submission"
    payload := some (if isRequired then evaluationResult
                     else setField evaluationResult "value" (JSON.bool true)) }

/-- One inner `for (let j = 0; j < results.length; j++)` pass of
`examinePredicateRelatedField` for a fixed field index.  The loop re-reads
`results.length` after every push, so entries appended during the pass are
examined as well; this is modelled by a queue of the entries not yet
examined, into which pushed entries are enqueued at the back.  The `fuel`
argument makes the recursion structural: each step consumes either a
matching pending entry (enqueueing one non-matching entry) or a
non-matching one, so `countP examineCondition pending + length pending`
steps always suffice, and `examineFieldPass` supplies exactly that amount. -/
def examineLoopFuel (input_descriptor_idx : Nat) (fields : List Pe.Field) (fieldIdx : Nat) :
    Nat → List HandlerCheckResult → List HandlerCheckResult → List HandlerCheckResult
  | 0, processed, pending => processed ++ pending
  | _ + 1, processed, [] => processed
  | fuel + 1, processed, r :: rest =>
      if examineCondition input_descriptor_idx fields fieldIdx r then
        examineLoopFuel input_descriptor_idx fields fieldIdx fuel (processed ++ [r])
          (rest ++ [pushedResult input_descriptor_idx fields fieldIdx r])
      else
        examineLoopFuel input_descriptor_idx fields fieldIdx fuel (processed ++ [r]) rest

/-- The inner loop of `examinePredicateRelatedField` over the whole current
result log, for one field index. -/
def examineFieldPass (input_descriptor_idx : Nat) (fields : List Pe.Field) (fieldIdx : Nat)
    (results : List HandlerCheckResult) : List HandlerCheckResult :=
  examineLoopFuel input_descriptor_idx fields fieldIdx
    (results.countP (examineCondition input_descriptor_idx fields fieldIdx) + results.length)
    [] results

/-- `examinePredicateRelatedField` (lines 21-31): for every field index, one
pass over the (growing) result log. -/
def examinePredicateRelatedField (input_descriptor_idx : Nat) (constraints : Constraints)
    (results : List HandlerCheckResult) : List HandlerCheckResult :=
  let fields := constraints.fields.getD []
  (List.range fields.length).foldl
    (fun acc i => examineFieldPass input_descriptor_idx fields i acc) results

/-- `PredicateRelatedFieldEvaluationHandler.handle` (lines 13-19): examines
each descriptor whose `constraints` and `constraints.fields` are present
(note that in JS an empty `fields` array is truthy and is examined, which is
a no-op).  The unused credential argument mirrors the handler's ignored
`_p: unknown` parameter. -/
def handle (pd : PresentationDefinition) (_p : List JSON)
    (results : List HandlerCheckResult) : List HandlerCheckResult :=
  pd.input_descriptors.enum.foldl
    (fun acc d =>
      match d.2.constraints with
      | some cs =>
          match cs.fields with
          | some _ => examinePredicateRelatedField d.1 cs acc
          | none => acc
      | none => acc)
    results

end PredicateRelatedField

/-!
The `PEX` facade (`lib/PEX.ts`).  The collaborators that are not part of the
provided sources — `EvaluationClientWrapper`, `SSITypesBuilder`, the
validation bundles and `definitionVersionDiscovery` — enter the embedded
methods as function parameters, constrained only by their contracts; where
the specification pins down part of their behaviour, a definition marked
`Modelled from the spec:` realises exactly that part.
-/

/-- An entry of a `PresentationSubmission.descriptor_map`. -/
structure DescriptorMapEntry where
  id : String := ""
  format : String := ""
  path : String := ""
deriving DecidableEq

/-- A `PresentationSubmission`. -/
structure PresentationSubmission where
  id : String := ""
  definition_id : String := ""
  descriptor_map : List DescriptorMapEntry := []
deriving DecidableEq

/-- The `EvaluationResults` returned by `evaluate`/`evaluateCredentials`/
`evaluatePresentation`. -/
structure EvaluationResults where
  value : Option PresentationSubmission := none
  warnings : List String := []
  errors : List String := []
  verifiableCredential : List JSON := []
  areRequiredCredentialsPresent : Status := Status.info
deriving DecidableEq

/-- The `SelectResults` returned by `selectFrom` (`matchList` embeds the
`matches` member; `matches` is a reserved word in Lean). -/
structure SelectResults where
  errors : List String := []
  matchList : List String := []
  areRequiredCredentialsPresent : Status := Status.error
  verifiableCredential : List JSON := []
deriving DecidableEq

/-- The `opts` bag taken by the `PEX` evaluation methods (each method reads
the subset it documents; `none` models an absent key). -/
structure EvalOpts where
  holderDIDs : List String := []
  limitDisclosureSignatureSuites : List String := []
  restrictToFormats : Option JSON := none
  restrictToDIDMethods : List String := []
  presentationSubmission : Option PresentationSubmission := none
  generatePresentationSubmission : Option Bool := none

/-- Modelled from the spec: the outcome of one run of the evaluation chain,
before the submission id is attached — the spec makes evaluation "a pure
function of its inputs plus a deterministic clock/UUID source for submission
IDs", so everything except the id is a function of the inputs alone.
`descriptor_map` is `none` when no submission could be synthesised. -/
structure CoreOutcome where
  descriptor_map : Option (List DescriptorMapEntry) := none
  warnings : List String := []
  errors : List String := []
  verifiableCredential : List JSON := []
  status : Status := Status.info

/-- Modelled from the spec: the state of an `EvaluationClientWrapper` — per
the spec the handler result log "is the only mutable structure during
evaluation", so the wrapper state is its log. -/
structure EvaluationClientWrapper where
  results : List HandlerCheckResult := []

/-- `new EvaluationClientWrapper()`: a wrapper with an empty log. -/
def newEvaluationClientWrapper : EvaluationClientWrapper := {}

/-- The type of the evaluation-chain algorithm of
`EvaluationClientWrapper.evaluate` (not part of the provided sources): a
function of the wrapper's initial log and the evaluation inputs. -/
def EvalCore : Type :=
  List HandlerCheckResult → PresentationDefinition → List JSON → EvalOpts → CoreOutcome

/-- Modelled from the spec: `EvaluationClientWrapper.evaluate` runs the
chain on the wrapper's log and attaches the UUID-source value as the
submission `id` (and the definition's `id` as `definition_id`); the UUID
reaches nothing else. -/
def wrapperEvaluate (core : EvalCore) (w : EvaluationClientWrapper) (uuid : String)
    (pd : PresentationDefinition) (vcs : List JSON) (opts : EvalOpts) : EvaluationResults :=
  let o := core w.results pd vcs opts
  { value := o.descriptor_map.map (fun dm =>
      { id := uuid, definition_id := pd.id, descriptor_map := dm })
    warnings := o.warnings
    errors := o.errors
    verifiableCredential := o.verifiableCredential
    areRequiredCredentialsPresent := o.status }

/-- The type of `EvaluationClientWrapper.selectFrom` (not part of the
provided sources; `PEX` always calls it on a freshly constructed wrapper,
hence no wrapper-state argument). -/
def SelectCore : Type :=
  PresentationDefinition → List JSON → EvalOpts → SelectResults

/-- The type of `SSITypesBuilder.mapExternalVerifiableCredentialsToWrappedVcs`
(not part of the provided sources). -/
def WrapVcs : Type := List JSON → List JSON

/-- The type of `SSITypesBuilder.toInternalPresentationDefinition` (not part
of the provided sources). -/
def ToInternalPd : Type := PresentationDefinition → PresentationDefinition

/-- The mutable state of a `PEX` instance: the wrapper stored in its
`_evaluationClientWrapper` field. -/
structure PEXState where
  _evaluationClientWrapper : EvaluationClientWrapper := {}

/-- `PEX.evaluateCredentials` (lines 184-210 of `PEX.ts`): wraps the
credentials, overwrites `this._evaluationClientWrapper` with a fresh
wrapper, evaluates, and — when the evaluation produced a submission with a
non-empty `descriptor_map` — overwrites `areRequiredCredentialsPresent` and
`errors` with those of a fresh `selectFrom` run over the same wrapped
credentials and opts; otherwise sets `areRequiredCredentialsPresent` to
`error`.  `uuid` is the value drawn from the UUID source during this call. -/
def evaluateCredentials (core : EvalCore) (selectFromCore : SelectCore)
    (wrapVcs : WrapVcs) (toInternalPd : ToInternalPd) (uuid : String) (st : PEXState)
    (pd : PresentationDefinition) (verifiableCredentials : List JSON) (opts : EvalOpts) :
    EvaluationResults × PEXState :=
  let wrappedVerifiableCredentials := wrapVcs verifiableCredentials
  let fresh := newEvaluationClientWrapper
  let internalPd := toInternalPd pd
  let result := wrapperEvaluate core fresh uuid internalPd wrappedVerifiableCredentials opts
  let final :=
    match result.value with
    | some submission =>
        if submission.descriptor_map.length ≠ 0 then
          let selectResults := selectFromCore internalPd wrappedVerifiableCredentials opts
          { result with
              areRequiredCredentialsPresent := selectResults.areRequiredCredentialsPresent
              errors := selectResults.errors }
        else { result with areRequiredCredentialsPresent := Status.error }
    | none => { result with areRequiredCredentialsPresent := Status.error }
  (final, { _evaluationClientWrapper := fresh })

/-- The `presentation` member of a `WrappedVerifiablePresentation` (the
members `evaluatePresentation` reads). -/
structure WrappedPresentationInner where
  holder : Option String := none
  presentation_submission : Option PresentationSubmission := none

/-- A `WrappedVerifiablePresentation` as produced by
`SSITypesBuilder.mapExternalVerifiablePresentationToWrappedVP`. -/
structure WrappedVerifiablePresentation where
  presentation : WrappedPresentationInner := {}
  vcs : List JSON := []

/-- The type of `SSITypesBuilder.mapExternalVerifiablePresentationToWrappedVP`
(not part of the provided sources). -/
def WrapVp : Type := JSON → WrappedVerifiablePresentation

/-- `PEX.evaluatePresentation` (lines 133-171 of `PEX.ts`).
`generatePresentationSubmission` defaults to whether
`opts.presentationSubmission` was provided; the submission to evaluate is
`opts.presentationSubmission || wrapped.presentation.presentation_submission`
— both operands have an object type, so `||` truthiness coincides with
presence and is modelled by `Option`; when neither exists and generation
is not requested, `Error(...)` is thrown, modelled as `Except.error`.
Afterwards the stored wrapper (not a fresh one) evaluates, and a fresh
`selectFrom` run may clear `errors`.  The `JSON.parse(JSON.stringify(...))`
deep copy is the identity at the level of values; its heap discipline is
modelled separately by `evaluatePresentationHeap`. -/
def evaluatePresentation (core : EvalCore) (selectFromCore : SelectCore) (wrapVp : WrapVp)
    (toInternalPd : ToInternalPd) (uuid : String) (st : PEXState)
    (pd : PresentationDefinition) (presentation : JSON) (opts : EvalOpts) :
    Except String (EvaluationResults × PEXState) :=
  let generatePresentationSubmission : Bool :=
    match opts.generatePresentationSubmission with
    | some b => b
    | none => opts.presentationSubmission.isSome
  let internalPd := toInternalPd pd
  let presentationCopy := presentation
  let wrappedPresentation := wrapVp presentationCopy
  let presentationSubmission :=
    match opts.presentationSubmission with
    | some ps => some ps
    | none => wrappedPresentation.presentation.presentation_submission
  if presentationSubmission.isNone ∧ generatePresentationSubmission = false then
    Except.error "Either a presentation submission as part of the VP or provided separately was expected"
  else
    let holderDIDs :=
      match wrappedPresentation.presentation.holder with
      | some h => [h]
      | none => []
    let updatedOpts : EvalOpts :=
      { opts with
          holderDIDs := holderDIDs
          presentationSubmission := presentationSubmission
          generatePresentationSubmission := some generatePresentationSubmission }
    let result := wrapperEvaluate core st._evaluationClientWrapper uuid internalPd
      wrappedPresentation.vcs updatedOpts
    let final :=
      match result.value with
      | some submission =>
          if submission.descriptor_map.length ≠ 0 then
            let selectResults := selectFromCore internalPd wrappedPresentation.vcs updatedOpts
            if selectResults.areRequiredCredentialsPresent ≠ Status.error then
              { result with errors := [] }
            else result
          else result
      | none => result
    Except.ok (final, st)

/-- `PEX.selectFrom` (lines 223-238 of `PEX.ts`) at the level of values:
deep-copies the caller's credential list, overwrites
`this._evaluationClientWrapper` with a fresh wrapper and delegates to its
`selectFrom` over the wrapped copy.  The heap discipline of the
`JSON.parse(JSON.stringify(...))` copy is modelled by `selectFromHeap`. -/
def selectFrom (selectFromCore : SelectCore) (wrapVcs : WrapVcs) (toInternalPd : ToInternalPd)
    (st : PEXState) (pd : PresentationDefinition) (verifiableCredentials : List JSON)
    (opts : EvalOpts) : SelectResults × PEXState :=
  let verifiableCredentialCopy := verifiableCredentials
  let internalPd := toInternalPd pd
  let fresh := newEvaluationClientWrapper
  (selectFromCore internalPd (wrapVcs verifiableCredentialCopy) opts,
   { _evaluationClientWrapper := fresh })

/-- The members of a `basePresentationPayload` read by
`PEX.constructPresentation` (`context` embeds the `'@context'` member; each
may be a single value or an array, hence `JSON`). -/
structure BasePresentationPayload where
  context : Option JSON := none
  type : Option JSON := none
deriving DecidableEq

/-- The presentation object returned by `PEX.constructPresentation`
(`context` embeds the `'@context'` member). -/
structure Presentation where
  context : List JSON := []
  type : List JSON := []
  holder : Option String := none
  presentation_submission : Option PresentationSubmission := none
  verifiableCredential : List JSON := []
deriving DecidableEq

/-- The `type` normalisation of `constructPresentation` (lines 286-290):
`Array.isArray(t) ? t || [] : t ? [t] : []`. -/
def baseTypeList (basePresentationPayload : Option BasePresentationPayload) : List JSON :=
  match basePresentationPayload.bind (fun b => b.type) with
  | some (JSON.acons h t) => h :: jsElems t
  | some JSON.anil => []
  | some v => if truthy v then [v] else []
  | none => []

/-- The `'@context'` normalisation of `constructPresentation`
(lines 291-295): `c ? (Array.isArray(c) ? c : [c]) : []`. -/
def baseContextList (basePresentationPayload : Option BasePresentationPayload) : List JSON :=
  match basePresentationPayload.bind (fun b => b.context) with
  | none => []
  | some v =>
      if truthy v then
        match v with
        | JSON.acons h t => h :: jsElems t
        | JSON.anil => []
        | w => [w]
      else []

/-- The `if (!list.includes(x)) list.push(x)` idiom of
`constructPresentation` (membership of the embedded values coincides with
the `===` comparison of `includes` for the string constants pushed). -/
def pushIfAbsent (l : List JSON) (x : JSON) : List JSON :=
  if x ∈ l then l else l ++ [x]

/-- `PEX.constructPresentation` (lines 277-319 of `PEX.ts`).  The
single-credential overload is subsumed by passing a singleton list (the
source wraps a non-array argument into an array). -/
def constructPresentation (selectedCredentials : List JSON)
    (presentationSubmission : Option PresentationSubmission)
    (holderDID : Option String)
    (basePresentationPayload : Option BasePresentationPayload) : Presentation :=
  let holder := holderDID
  let type0 := baseTypeList basePresentationPayload
  let context0 := baseContextList basePresentationPayload
  let context1 := pushIfAbsent context0 (JSON.str "https://www.w3.org/2018/credentials/v1")
  let type1 := pushIfAbsent type0 (JSON.str "VerifiablePresentation")
  let type2 :=
    if presentationSubmission.isSome then
      pushIfAbsent type1 (JSON.str "PresentationSubmission")
    else type1
  let context2 :=
    if presentationSubmission.isSome then
      pushIfAbsent context1 (JSON.str "https://identity.foundation/presentation-exchange/submission/v1")
    else context1
  { context := context2
    type := type2
    holder := holder
    presentation_submission := presentationSubmission
    verifiableCredential := selectedCredentials }

/-- The `PEVersion` tag of version discovery. -/
inductive PEVersion where
  | v1 : PEVersion
  | v2 : PEVersion
deriving DecidableEq

/-- The `DiscoveredVersion` contract of `definitionVersionDiscovery` (as
read by `PEX.validateDefinition`: an optional `version` and an optional
`error`). -/
structure DiscoveredVersion where
  version : Option PEVersion := none
  error : Option String := none

/-- One entry of a validation report (`Checked` of the validation engine). -/
structure Checked where
  tag : String := ""
  status : Status := Status.info
  message : Option String := none
deriving DecidableEq

/-- The type of `definitionVersionDiscovery` (not part of the provided
sources; `PEX.validateDefinition` reads only its `DiscoveredVersion`
result). -/
def VersionDiscovery : Type := PresentationDefinition → DiscoveredVersion

/-- The type of one validation bundle run by the `ValidationEngine` (not
part of the provided sources; per the spec it "produces a pass/fail
report"). -/
def ValidationBundle : Type := PresentationDefinition → List Checked

/-- `PEX.validateDefinition` (lines 328-344 of `PEX.ts`): runs version
discovery and **throws** its error when discovery failed (`if (result.error)
throw result.error`, modelled as `Except.error`); otherwise validates with
the v1 bundle exactly when the discovered version is `v1`, and with the v2
bundle otherwise. -/
def validateDefinition (definitionVersionDiscovery : VersionDiscovery)
    (v1Bundle : ValidationBundle) (v2Bundle : ValidationBundle)
    (presentationDefinition : PresentationDefinition) : Except String (List Checked) :=
  let result := definitionVersionDiscovery presentationDefinition
  match result.error with
  | some err => Except.error err
  | none =>
      if result.version = some PEVersion.v1 then Except.ok (v1Bundle presentationDefinition)
      else Except.ok (v2Bundle presentationDefinition)

/-!
Heap discipline of the deep copies taken by `PEX.selectFrom` (line 233) and
`PEX.evaluatePresentation` (line 147).  JS objects live on a heap and are
passed by reference; the store below gives each credential (resp. the
presentation) one cell, and `JSON.parse(JSON.stringify(x))` allocates fresh
cells holding structurally equal values.  The wrapper — which may overwrite
the cells it is handed when limit disclosure replaces credentials — is a
parameter constrained by the frame condition that it writes no cell outside
the list it received.
-/

/-- A store of JS heap cells: an allocation frontier and the cell
contents. -/
structure Store where
  next : Nat
  mem : Nat → JSON

/-- `JSON.parse(JSON.stringify(...))` over a list of cells: allocates one
fresh cell per input cell, holding a structurally equal value. -/
def allocCopies (s : Store) (addrs : List Nat) : Store × List Nat :=
  ({ next := s.next + addrs.length
     mem := fun a =>
       if s.next ≤ a ∧ a < s.next + addrs.length then s.mem (addrs.getD (a - s.next) 0)
       else s.mem a },
   (List.range addrs.length).map (fun i => s.next + i))

/-- The type of `EvaluationClientWrapper.selectFrom` acting on the store:
it receives the addresses of the (wrapped) credentials handed to it. -/
def SelectCoreHeap : Type := Store → List Nat → SelectResults × Store

/-- `PEX.selectFrom`'s heap discipline: the wrapper is run on freshly
allocated copies of the caller's credential cells, never on the originals. -/
def selectFromHeap (wrapperSelectFrom : SelectCoreHeap) (s : Store)
    (credAddrs : List Nat) : SelectResults × Store :=
  let copied := allocCopies s credAddrs
  wrapperSelectFrom copied.1 copied.2

/-- The type of the wrapper evaluation acting on the store: it receives the
address of the (wrapped) presentation handed to it. -/
def EvalCoreHeap : Type := Store → Nat → EvaluationResults × Store

/-- `PEX.evaluatePresentation`'s heap discipline: the wrapper is run on a
freshly allocated copy of the caller's presentation cell. -/
def evaluatePresentationHeap (wrapperEvaluateFn : EvalCoreHeap) (s : Store)
    (presentationAddr : Nat) : EvaluationResults × Store :=
  let copied := allocCopies s [presentationAddr]
  wrapperEvaluateFn copied.1 (copied.2.getD 0 0)

/-!
The LimitDisclosure handler (spec section 4.5).  Its implementation is not
among the provided sources — only its test spec is — so the projection is
modelled from the specification.
-/

/-- A component of a concrete JSONPath: an object key or an array index. -/
inductive PathComp where
  | key (k : String) : PathComp
  | idx (n : Nat) : PathComp
deriving DecidableEq

/-- The value of a credential at a concrete path (`none` when the path does
not resolve). -/
def getAtPath : JSON → List PathComp → Option JSON
  | j, [] => some j
  | j, PathComp.key k :: rest => (getField j k).bind (fun v => getAtPath v rest)
  | j, PathComp.idx n :: rest => ((jsElems j).get? n).bind (fun v => getAtPath v rest)

/-- Writes a list element, padding with `null` up to the index (array
projection is element-wise "by path indexing" per the spec). -/
def setListElem (l : List JSON) (n : Nat) (v : JSON) : List JSON :=
  (l ++ List.replicate (n + 1 - l.length) JSON.null).set n v

/-- Modelled from the spec: writing a disclosed value into the projected
copy at a concrete path, creating missing intermediate objects/arrays of
the shape the next component calls for.  A `key` component on a non-object
or an `idx` component on a non-array is a no-op (such paths cannot have
resolved in the original). -/
def setAtPath : JSON → List PathComp → JSON → JSON
  | _, [], v => v
  | j, PathComp.key k :: rest, v =>
      let inner :=
        match getField j k with
        | some w => w
        | none =>
            match rest with
            | PathComp.idx _ :: _ => JSON.anil
            | _ => JSON.onil
      setField j k (setAtPath inner rest v)
  | j, PathComp.idx n :: rest, v =>
      if isArr j then
        let elems := jsElems j
        let inner :=
          match elems.get? n with
          | some w => w
          | none =>
              match rest with
              | PathComp.idx _ :: _ => JSON.anil
              | _ => JSON.onil
        jarr (setListElem elems n (setAtPath inner rest v))
      else j

/-- Modelled from the spec: the structurally mandatory envelope fields a
projected credential keeps (spec section 4.5). -/
def mandatoryFields : List String :=
  ["@context", "type", "id", "issuer", "issuanceDate", "expirationDate",
   "credentialSchema", "credentialStatus"]

/-- Modelled from the spec: the collection step of the LimitDisclosure
handler — "Collect all concrete paths (`payload.result.path`) surfaced by
FilterEvaluation and PredicateRelatedField for this `(i, j)` pair". -/
def collectDisclosedPaths (results : List HandlerCheckResult) (descIdx vcIdx : Nat) :
    List JSON :=
  results.filterMap (fun r =>
    if (r.evaluator = "FilterEvaluation" ∨ r.evaluator = "PredicateRelatedField")
        ∧ r.input_descriptor_path = "$.input_descriptors[" ++ toString descIdx ++ "]"
        ∧ r.verifiable_credential_path = "$.verifiableCredential[" ++ toString vcIdx ++ "]" then
      payloadResultPath r
    else none)

/-- Conversion of a surfaced concrete path (a JS array such as
`['$', 'credentialSubject', 'age']` or `['$', 'x', 0]`) into path
components, dropping the leading root marker. -/
def toPathComps (p : JSON) : List PathComp :=
  let elems := jsElems p
  let elems :=
    match elems with
    | JSON.str "$" :: rest => rest
    | l => l
  elems.filterMap (fun e =>
    match e with
    | JSON.str s => some (PathComp.key s)
    | JSON.num n => if 0 ≤ n then some (PathComp.idx n.toNat) else none
    | _ => none)

/-- One step of building the projection's envelope: copy a mandatory field
from the original when present. -/
def mandatoryStep (vc : JSON) (acc : JSON) (k : String) : JSON :=
  match getField vc k with
  | some v => setField acc k v
  | none => acc

/-- One step of the projection: copy the value at a disclosed path from the
original into the projected copy when the path resolves. -/
def discloseStep (vc : JSON) (acc : JSON) (p : List PathComp) : JSON :=
  match getAtPath vc p with
  | some v => setAtPath acc p v
  | none => acc

/-- Modelled from the spec: the LimitDisclosure projection — "a deep copy of
the original with `credentialSubject` stripped to only the claims at those
paths plus structurally mandatory fields".  The projected credential starts
from the mandatory envelope fields present in the original and then copies
the value at every disclosed path that resolves. -/
def limitDisclosedCredential (vc : JSON) (paths : List (List PathComp)) : JSON :=
  paths.foldl (discloseStep vc) (mandatoryFields.foldl (mandatoryStep vc) JSON.onil)

/-- The projection's view of a credential's top-level subject claim `k`
(`undefined` when `credentialSubject` itself is absent). -/
def subjGet (j : JSON) (k : String) : Option JSON :=
  getField ((getField j "credentialSubject").getD JSON.null) k

/-- Shape check on a disclosed path: non-empty, and a path into
`credentialSubject` names a top-level subject claim (its second component
is a key).  Concrete paths surfaced by field evaluation have this shape. -/
def pathShapeOK : List PathComp → Bool
  | [] => false
  | PathComp.key k1 :: rest =>
      if k1 = "credentialSubject" then
        match rest with
        | PathComp.key _ :: _ => true
        | _ => false
      else true
  | PathComp.idx _ :: _ => true

/-- Modelled from the spec: the LimitDisclosure trigger — the projection
runs only when the credential's proof type appears in the caller-supplied
`limitDisclosureSignatureSuites` allow-list; otherwise the credential is
not replaced (`none`). -/
def limitDisclosure (vc : JSON) (proofType : String)
    (limitDisclosureSignatureSuites : List String) (paths : List (List PathComp)) :
    Option JSON :=
  if proofType ∈ limitDisclosureSignatureSuites then
    some (limitDisclosedCredential vc paths)
  else none

/-- The key of a top-level subject claim named by a disclosed path: `some k`
exactly for paths of the form `credentialSubject.k...`. -/
def subjClaimKey : List PathComp → Option String
  | PathComp.key k1 :: PathComp.key k2 :: _ => if k1 = "credentialSubject" then some k2 else none
  | _ => none

/-- The top-level key a path starts with, if any. -/
def headKey : List PathComp → Option String
  | PathComp.key k :: _ => some k
  | _ => none

/-!
Concrete inputs used by the counterexamples and witnesses below.  They
follow scenario S1/S2 of the specification (an age predicate over
`$.credentialSubject.age`, and a birth-date field with a `required`
predicate).
-/

/-- The concrete path `['$', 'credentialSubject', 'age']` surfaced by a
filter evaluation. -/
def agePathJSON : JSON := jarr [JSON.str "$", JSON.str "credentialSubject", JSON.str "age"]

/-- A `FilterEvaluation` payload `{ result: { path: [...], value: 25 } }`. -/
def agePayload : JSON := jobj [("result", jobj [("path", agePathJSON), ("value", JSON.num 25)])]

/-- A field with `predicate: preferred` over `$.credentialSubject.age`. -/
def ageFieldPreferred : Pe.Field :=
  { path := ["$.credentialSubject.age"]
    filter := some (jobj [("type", JSON.str "number"), ("minimum", JSON.num 18)])
    predicate := some Optionality.preferred }

/-- A `FilterEvaluation` log entry for descriptor 0 and credential 0
carrying `agePayload`. -/
def ageFilterEntry : HandlerCheckResult :=
  { input_descriptor_path := "$.input_descriptors[0]"
    verifiable_credential_path := "$.verifiableCredential[0]"
    evaluator := "FilterEvaluation"
    status := Status.info
    message := "Input candidate valid for presentation submission"
    payload := some agePayload }

/-- The concrete path `['$', 'credentialSubject', 'birthDate']`. -/
def birthDatePathJSON : JSON :=
  jarr [JSON.str "$", JSON.str "credentialSubject", JSON.str "birthDate"]

/-- A `FilterEvaluation` payload carrying a birth date. -/
def birthDatePayload : JSON :=
  jobj [("result", jobj [("path", birthDatePathJSON), ("value", JSON.str "1990-01-01")])]

/-- A field with `predicate: required` over `$.credentialSubject.birthDate`. -/
def birthDateFieldRequired : Pe.Field :=
  { path := ["$.credentialSubject.birthDate"]
    filter := some (jobj [("type", JSON.str "string")])
    predicate := some Optionality.required }

/-- A `FilterEvaluation` log entry for descriptor 0 and credential 0
carrying `birthDatePayload`. -/
def birthDateFilterEntry : HandlerCheckResult :=
  { input_descriptor_path := "$.input_descriptors[0]"
    verifiable_credential_path := "$.verifiableCredential[0]"
    evaluator := "FilterEvaluation"
    status := Status.info
    message := "Input candidate valid for presentation submission"
    payload := some birthDatePayload }

/-- A one-descriptor presentation definition whose single field is
`ageFieldPreferred`. -/
def pdPreferred : PresentationDefinition :=
  { id := "32f54163-7166-48f1-93d8-ff217bdb0653"
    input_descriptors := [{ id := "age", constraints := some { fields := some [ageFieldPreferred] } }] }

/-- The S1 credential: a subject with `id`, `age` and an undisclosed `etc`
claim, carried in a BBS+-signed credential. -/
def vcS1 : JSON :=
  jobj [("@context", jarr [JSON.str "https://www.w3.org/2018/credentials/v1"]),
        ("id", JSON.str "https://example.com/credentials/1"),
        ("type", jarr [JSON.str "VerifiableCredential"]),
        ("issuer", JSON.str "did:example:issuer"),
        ("issuanceDate", JSON.str "2021-01-01T00:00:00Z"),
        ("birthPlace", JSON.str "Mars"),
        ("credentialSubject",
          jobj [("id", JSON.str "did:example:ebfeb1f712ebc6f1c276e12ec21"),
                ("age", JSON.num 25),
                ("etc", JSON.str "etc field")]),
        ("proof", jobj [("type", JSON.str "BbsBlsSignature2020")])]

/-- A concrete evaluation chain used to instantiate the facade theorems: it
always synthesises a one-entry descriptor map. -/
def demoEvalCore : EvalCore := fun _log _pd _vcs _opts =>
  { descriptor_map := some [{ id := "age", format := "ldp_vc", path := "$.verifiableCredential[0]" }]
    verifiableCredential := [vcS1]
    status := Status.info }

/-- A concrete evaluation chain that synthesises no submission. -/
def demoEvalCoreNoValue : EvalCore := fun _log _pd _vcs _opts =>
  { descriptor_map := none, status := Status.info }

/-- A concrete `selectFrom` core whose aggregate status is `warn`. -/
def demoSelectCore : SelectCore := fun _pd _vcs _opts =>
  { errors := ["preferred directive violated"]
    areRequiredCredentialsPresent := Status.warn }

/-- A version discovery that recognises every input as v1. -/
def demoDiscoveryV1 : VersionDiscovery := fun _ => { version := some PEVersion.v1 }

/-- A version discovery that fails on every input, with the error message
the real discovery produces for unrecognisable objects. -/
def demoDiscoveryError : VersionDiscovery :=
  fun _ => { error := some "This is not a valid PresentationDefinition" }

/-- A validation bundle producing a fixed report. -/
def demoBundle : ValidationBundle := fun _ =>
  [{ tag := "root", status := Status.info, message := some "ok" }]

/-- A wrapper `selectFrom` over the store that overwrites every credential
cell it is handed (as limit disclosure does when it replaces credentials). -/
def overwritingSelectCoreHeap : SelectCoreHeap := fun st addrs =>
  ({ areRequiredCredentialsPresent := Status.info },
   { next := st.next, mem := fun a => if a ∈ addrs then JSON.null else st.mem a })

/-- A wrapper evaluation over the store that overwrites the presentation
cell it is handed. -/
def overwritingEvalCoreHeap : EvalCoreHeap := fun st addr =>
  ({ areRequiredCredentialsPresent := Status.info },
   { next := st.next, mem := fun a => if a = addr then JSON.null else st.mem a })

/-- A store with the S1 credential in cell 0. -/
def demoStore : Store :=
  { next := 1, mem := fun a => if a = 0 then vcS1 else JSON.null }

/-- A concrete presentation submission used by the facade witnesses. -/
def demoSubmission : PresentationSubmission :=
  { id := "uuid-1"
    definition_id := "32f54163-7166-48f1-93d8-ff217bdb0653"
    descriptor_map := [{ id := "age", format := "ldp_vc", path := "$.verifiableCredential[0]" }] }

/-- A base presentation payload already carrying the credentials context. -/
def demoBasePayload : BasePresentationPayload :=
  { context := some (jarr [JSON.str "https://www.w3.org/2018/credentials/v1"]) }

/-!
Helper lemmas.  None of the lemmas in this section is the theorem of a
claim; they are shared infrastructure for the claim theorems below.
-/

/-- Reading a key other than the one written is unchanged. -/
theorem getField_setField_ne (j : JSON) (k k2 : String) (v : JSON) (h : k2 ≠ k) :
    getField (setField j k v) k2 = getField j k2 := by
  induction j with
  | ocons key val t _ ih =>
      by_cases hk : key = k
      · subst hk; simp [setField, getField, Ne.symm h]
      · simp only [setField, hk, if_false]
        by_cases h2 : key = k2
        · simp [getField, h2]
        · simp [getField, h2, ih]
  | onil => simp [setField, getField, Ne.symm h]
  | _ => simp [setField]

/-- Reading the key just written on a well-formed object yields the written
value. -/
theorem getField_setField_self (j : JSON) (k : String) (v : JSON) (h : isObjWF j = true) :
    getField (setField j k v) k = some v := by
  induction j with
  | ocons key val t _ ih =>
      by_cases hk : key = k
      · simp [setField, hk, getField]
      · simp only [setField, hk, if_false]
        simp [getField, hk]
        exact ih (by simpa [isObjWF] using h)
  | onil => simp [setField, getField]
  | _ => simp [isObjWF] at h

/-- Writing preserves well-formedness of objects. -/
theorem isObjWF_setField (j : JSON) (k : String) (v : JSON) (h : isObjWF j = true) :
    isObjWF (setField j k v) = true := by
  induction j with
  | ocons key val t _ ih =>
      by_cases hk : key = k
      · simpa [setField, hk, isObjWF] using h
      · simp only [setField, hk, if_false, isObjWF]
        exact ih (by simpa [isObjWF] using h)
  | onil => simp [setField, isObjWF]
  | _ => simp [isObjWF] at h

/-- `spreadObj` always yields a well-formed object. -/
theorem isObjWF_spreadObj (j : JSON) : isObjWF (spreadObj j) = true := by
  induction j with
  | ocons _ _ t _ ih => simpa [spreadObj, isObjWF] using ih
  | _ => simp [spreadObj, isObjWF]

/-- `jobj` always yields a well-formed object. -/
theorem isObjWF_jobj (l : List (String × JSON)) : isObjWF (jobj l) = true := by
  induction l with
  | nil => simp [jobj, isObjWF]
  | cons p t ih => simpa [jobj, isObjWF] using ih

/-- Object spread always yields a well-formed object. -/
theorem isObjWF_jsSpread (x : Option JSON) : isObjWF (jsSpread x) = true := by
  match x with
  | none => simp [jsSpread, isObjWF]
  | some JSON.null | some (JSON.bool _) | some (JSON.num _) | some JSON.onil =>
      simp [jsSpread, isObjWF]
  | some (JSON.str s) => simp [jsSpread, objOfIndexed, isObjWF_jobj]
  | some (JSON.acons h t) => simp [jsSpread, objOfIndexed, isObjWF_jobj]
  | some JSON.anil => simp [jsSpread, isObjWF]
  | some (JSON.ocons k v t) => simpa [jsSpread, isObjWF] using isObjWF_spreadObj t

/-- A well-formed object is not an array. -/
theorem isArr_of_isObjWF (j : JSON) (h : isObjWF j = true) : isArr j = false := by
  cases j <;> simp_all [isObjWF, isArr]

namespace PredicateRelatedField

/-- An entry pushed by the handler never satisfies the guard again: its
`evaluator` is `PredicateRelatedField`, not `FilterEvaluation`. -/
theorem examineCondition_pushedResult (i1 i2 : Nat) (fs1 fs2 : List Pe.Field)
    (fi1 fi2 : Nat) (r : HandlerCheckResult) :
    examineCondition i1 fs1 fi1 (pushedResult i2 fs2 fi2 r) = false := by
  simp [examineCondition, pushedResult, getName]

/-- Characterisation of the inner loop: with adequate fuel it returns the
processed prefix, the pending entries, and one pushed entry per pending
entry satisfying the guard (in scan order); the entries pushed during a
pass are examined but never push again, by
`examineCondition_pushedResult`. -/
theorem examineLoopFuel_eq (i : Nat) (fs : List Pe.Field) (fi : Nat) :
    ∀ (fuel : Nat) (pending processed : List HandlerCheckResult),
      pending.countP (examineCondition i fs fi) + pending.length ≤ fuel →
      examineLoopFuel i fs fi fuel processed pending =
        processed ++ pending ++
          (pending.filter (examineCondition i fs fi)).map (pushedResult i fs fi) := by
  intro fuel
  induction fuel with
  | zero =>
      intro pending processed h
      have hnil : pending = [] := by
        cases pending with
        | nil => rfl
        | cons a t => simp [List.length_cons] at h
      subst hnil
      simp [examineLoopFuel]
  | succ n ih =>
      intro pending processed h
      cases pending with
      | nil => simp [examineLoopFuel]
      | cons r rest =>
          by_cases hc : examineCondition i fs fi r = true
          · rw [examineLoopFuel, if_pos hc]
            rw [ih (rest ++ [pushedResult i fs fi r]) (processed ++ [r])]
            · simp [List.filter_append, List.filter_cons, hc,
                examineCondition_pushedResult, List.append_assoc]
            · have h1 : (rest ++ [pushedResult i fs fi r]).countP
                  (examineCondition i fs fi) = rest.countP (examineCondition i fs fi) := by
                simp [List.countP_append, List.countP_cons, examineCondition_pushedResult]
              have h2 : (r :: rest).countP (examineCondition i fs fi) =
                  rest.countP (examineCondition i fs fi) + 1 := by
                simp [List.countP_cons, hc]
              simp only [h1, List.length_append, List.length_cons, List.length_nil]
              rw [h2] at h
              simp [List.length_cons] at h
              omega
          · rw [examineLoopFuel, if_neg hc]
            rw [ih rest (processed ++ [r])]
            · simp [List.filter_cons, hc, List.append_assoc]
            · have h2 : (r :: rest).countP (examineCondition i fs fi) =
                  rest.countP (examineCondition i fs fi) := by
                simp [List.countP_cons, hc]
              rw [h2] at h
              simp [List.length_cons] at h
              omega

/-- One field pass appends exactly one entry per log entry satisfying the
guard, in scan order, and changes nothing else. -/
theorem examineFieldPass_eq (i : Nat) (fs : List Pe.Field) (fi : Nat)
    (rs : List HandlerCheckResult) :
    examineFieldPass i fs fi rs =
      rs ++ (rs.filter (examineCondition i fs fi)).map (pushedResult i fs fi) := by
  unfold examineFieldPass
  rw [examineLoopFuel_eq i fs fi _ rs [] (le_refl _)]
  simp

end PredicateRelatedField

/-- A fold whose every step only appends to the accumulator only appends. -/
theorem foldl_extends {α β : Type} (step : List α → β → List α)
    (hstep : ∀ x b, ∃ s, step x b = x ++ s) :
    ∀ (l : List β) (x : List α), ∃ s, l.foldl step x = x ++ s := by
  intro l
  induction l with
  | nil => intro x; exact ⟨[], by simp⟩
  | cons b t ih =>
      intro x
      obtain ⟨s1, h1⟩ := hstep x b
      obtain ⟨s2, h2⟩ := ih (step x b)
      exact ⟨s1 ++ s2, by rw [List.foldl_cons, h2, h1, List.append_assoc]⟩

namespace PredicateRelatedField

/-- `examinePredicateRelatedField` only appends to the log. -/
theorem examinePredicateRelatedField_extends (i : Nat) (cs : Constraints)
    (rs : List HandlerCheckResult) :
    ∃ s, examinePredicateRelatedField i cs rs = rs ++ s := by
  unfold examinePredicateRelatedField
  exact foldl_extends _ (fun x fi => ⟨_, examineFieldPass_eq i (cs.fields.getD []) fi x⟩) _ rs

/-- `handle` only appends to the log. -/
theorem handle_extends (pd : PresentationDefinition) (p : List JSON)
    (rs : List HandlerCheckResult) :
    ∃ s, handle pd p rs = rs ++ s := by
  unfold handle
  refine foldl_extends _ (fun x d => ?_) _ rs
  cases hd : d.2.constraints with
  | some cs =>
      cases hf : cs.fields with
      | some fs => simp only [hf]; exact examinePredicateRelatedField_extends d.1 cs x
      | none => simp only [hf]; exact ⟨[], by simp⟩
  | none => exact ⟨[], by simp⟩

end PredicateRelatedField

/-- C4: the PredicateRelatedField handler only appends to the result log —
for every presentation definition, credential list and log, the
pre-existing entries (with their payloads, in particular every
`FilterEvaluation` entry's `payload.result.value`) form an unchanged prefix
of the output; and the handler's output does not depend on the credentials
at all (its credential parameter is the ignored `_p`), so no credential is
changed by running it. -/
theorem C4_predicate_handler_only_appends (pd : PresentationDefinition)
    (p p2 : List JSON) (rs : List HandlerCheckResult) :
    (∃ s, PredicateRelatedField.handle pd p rs = rs ++ s) ∧
    PredicateRelatedField.handle pd p rs = PredicateRelatedField.handle pd p2 rs :=
  ⟨PredicateRelatedField.handle_extends pd p rs, rfl⟩

/-- C1 counterexample: on a `FilterEvaluation` entry matched to the
`preferred` age field, the handler appends an entry whose payload is the
shallow copy of the original `payload.result`, so the appended payload has
**no** `result` member at all — `payload.result.value` of the appended
result is `undefined`, not the Boolean `true`; the Boolean sits at
`payload.value` instead. -/
theorem C1_counterexample :
    PredicateRelatedField.handle pdPreferred [] [ageFilterEntry] =
      [ageFilterEntry,
       PredicateRelatedField.pushedResult 0 [ageFieldPreferred] 0 ageFilterEntry] ∧
    getField ((PredicateRelatedField.pushedResult 0 [ageFieldPreferred] 0
        ageFilterEntry).payload.getD JSON.null) "result" = none ∧
    getField ((PredicateRelatedField.pushedResult 0 [ageFieldPreferred] 0
        ageFilterEntry).payload.getD JSON.null) "value" = some (JSON.bool true) := by
  refine ⟨?_, rfl, rfl⟩
  decide

/-- C1 (amended): for every FilterEvaluation result matched to a field
whose predicate is `preferred`, the handler appends a result whose payload
is the shallow copy of the original `payload.result` with its `value`
member replaced by the Boolean `true`; the appended payload's `value` is
the constant `true` whatever the original extracted value was, so no part
of the original value appears in it. -/
theorem C1_amended_preferred_value_is_true (i : Nat) (fs : List Pe.Field) (fi : Nat)
    (f : Pe.Field) (r : HandlerCheckResult) (rs : List HandlerCheckResult)
    (hf : fs[fi]? = some f) (hpred : f.predicate = some Optionality.preferred) :
    PredicateRelatedField.examineFieldPass i fs fi rs =
      rs ++ (rs.filter (PredicateRelatedField.examineCondition i fs fi)).map
        (PredicateRelatedField.pushedResult i fs fi) ∧
    (PredicateRelatedField.pushedResult i fs fi r).payload =
      some (setField (jsSpread (payloadResult r)) "value" (JSON.bool true)) ∧
    getField ((PredicateRelatedField.pushedResult i fs fi r).payload.getD JSON.null)
      "value" = some (JSON.bool true) := by
  have hreq : (match fs[fi]? with
      | some g => g.predicate == some Optionality.required
      | none => false) = false := by
    rw [hf]; simp [hpred]
  have hpush : (PredicateRelatedField.pushedResult i fs fi r).payload =
      some (setField (jsSpread (payloadResult r)) "value" (JSON.bool true)) := by
    simp only [PredicateRelatedField.pushedResult, hreq]
    simp
  refine ⟨PredicateRelatedField.examineFieldPass_eq i fs fi rs, hpush, ?_⟩
  rw [hpush]
  exact getField_setField_self _ _ _ (isObjWF_jsSpread _)

/-- C1 witness: the amended theorem applied to the concrete preferred-age
log entry. -/
theorem C1_amended_witness :
    PredicateRelatedField.examineFieldPass 0 [ageFieldPreferred] 0 [ageFilterEntry] =
      [ageFilterEntry] ++
        ([ageFilterEntry].filter (PredicateRelatedField.examineCondition 0 [ageFieldPreferred] 0)).map
          (PredicateRelatedField.pushedResult 0 [ageFieldPreferred] 0) ∧
    (PredicateRelatedField.pushedResult 0 [ageFieldPreferred] 0 ageFilterEntry).payload =
      some (setField (jsSpread (payloadResult ageFilterEntry)) "value" (JSON.bool true)) ∧
    getField ((PredicateRelatedField.pushedResult 0 [ageFieldPreferred] 0
        ageFilterEntry).payload.getD JSON.null) "value" = some (JSON.bool true) :=
  C1_amended_preferred_value_is_true 0 [ageFieldPreferred] 0 ageFieldPreferred
    ageFilterEntry [ageFilterEntry] rfl rfl

/-- C3 counterexample: for a `required`-predicate field the appended entry
does **not** carry a copy of the payload unchanged — it carries a shallow
copy of `payload.result`, dropping the `result` wrapper, so the appended
payload differs from the original payload. -/
theorem C3_counterexample :
    PredicateRelatedField.examineFieldPass 0 [birthDateFieldRequired] 0 [birthDateFilterEntry] =
      [birthDateFilterEntry,
       PredicateRelatedField.pushedResult 0 [birthDateFieldRequired] 0 birthDateFilterEntry] ∧
    (PredicateRelatedField.pushedResult 0 [birthDateFieldRequired] 0
        birthDateFilterEntry).payload ≠ birthDateFilterEntry.payload ∧
    (PredicateRelatedField.pushedResult 0 [birthDateFieldRequired] 0
        birthDateFilterEntry).payload = some (jsSpread (payloadResult birthDateFilterEntry)) := by
  refine ⟨?_, by decide, rfl⟩
  decide

/-- C3 (amended): for every log entry with evaluator `FilterEvaluation`
whose payload carries a result path, the handler appends a new result for
field `fi` if and only if the entry's parsed `input_descriptor_path` index
strictly equals the descriptor under examination, the field's `predicate`
is set, and the field's `path` list contains the concatenated concrete
result path; when `predicate = required` the appended result carries a
shallow copy of the payload's `result` member (not of the whole payload),
status `info`, evaluator `PredicateRelatedField` and message
`"Input candidate valid for presentation submission"`. -/
theorem C3_amended_guard_and_required_entry (i : Nat) (fs : List Pe.Field) (fi : Nat)
    (f : Pe.Field) (r : HandlerCheckResult) (rs : List HandlerCheckResult)
    (hf : fs[fi]? = some f)
    (hp : truthyOpt r.payload = true)
    (hres : truthyOpt (payloadResult r) = true)
    (hpath : truthyOpt (payloadResultPath r) = true)
    (heval : r.evaluator = "FilterEvaluation") :
    (PredicateRelatedField.examineCondition i fs fi r = true ↔
      (PredicateRelatedField.strictEqualsIdx
          (PredicateRelatedField.retrieveResultInputDescriptorIdx r.input_descriptor_path) i = true
        ∧ f.predicate.isSome = true
        ∧ PredicateRelatedField.concatenatePath ((payloadResultPath r).getD JSON.null) ∈ f.path)) ∧
    PredicateRelatedField.examineFieldPass i fs fi rs =
      rs ++ (rs.filter (PredicateRelatedField.examineCondition i fs fi)).map
        (PredicateRelatedField.pushedResult i fs fi) ∧
    (f.predicate = some Optionality.required →
      PredicateRelatedField.pushedResult i fs fi r =
        { input_descriptor_path := "$.input_descriptors[" ++ toString i ++ "]"
          verifiable_credential_path := r.verifiable_credential_path
          evaluator := "PredicateRelatedField"
          status := Status.info
          message := "Input candidate valid for presentation submission"
          payload := some (jsSpread (payloadResult r)) }) := by
  refine ⟨?_, PredicateRelatedField.examineFieldPass_eq i fs fi rs, ?_⟩
  · simp only [PredicateRelatedField.examineCondition, hp, hres, hpath, heval, hf,
      Bool.true_and, beq_self_eq_true]
    simp [Bool.and_eq_true, List.contains, List.elem_eq_mem]
  · intro hreqd
    have hreq : (match fs[fi]? with
        | some g => g.predicate == some Optionality.required
        | none => false) = true := by
      rw [hf]; simp [hreqd]
    simp only [PredicateRelatedField.pushedResult, hreq]
    simp [PredicateRelatedField.getName]

/-- C3 witness: the amended theorem applied to the concrete required
birth-date log entry, with every hypothesis discharged by computation. -/
theorem C3_amended_witness :
    (PredicateRelatedField.examineCondition 0 [birthDateFieldRequired] 0 birthDateFilterEntry = true ↔
      (PredicateRelatedField.strictEqualsIdx
          (PredicateRelatedField.retrieveResultInputDescriptorIdx
            birthDateFilterEntry.input_descriptor_path) 0 = true
        ∧ birthDateFieldRequired.predicate.isSome = true
        ∧ PredicateRelatedField.concatenatePath
            ((payloadResultPath birthDateFilterEntry).getD JSON.null) ∈ birthDateFieldRequired.path)) ∧
    PredicateRelatedField.examineFieldPass 0 [birthDateFieldRequired] 0 [birthDateFilterEntry] =
      [birthDateFilterEntry] ++
        ([birthDateFilterEntry].filter
          (PredicateRelatedField.examineCondition 0 [birthDateFieldRequired] 0)).map
          (PredicateRelatedField.pushedResult 0 [birthDateFieldRequired] 0) ∧
    (birthDateFieldRequired.predicate = some Optionality.required →
      PredicateRelatedField.pushedResult 0 [birthDateFieldRequired] 0 birthDateFilterEntry =
        { input_descriptor_path := "$.input_descriptors[" ++ toString 0 ++ "]"
          verifiable_credential_path := birthDateFilterEntry.verifiable_credential_path
          evaluator := "PredicateRelatedField"
          status := Status.info
          message := "Input candidate valid for presentation submission"
          payload := some (jsSpread (payloadResult birthDateFilterEntry)) }) :=
  C3_amended_guard_and_required_entry 0 [birthDateFieldRequired] 0 birthDateFieldRequired
    birthDateFilterEntry [birthDateFilterEntry] rfl rfl rfl rfl rfl

/-- The pushed element is a member afterwards. -/
theorem mem_pushIfAbsent_self (l : List JSON) (x : JSON) : x ∈ pushIfAbsent l x := by
  unfold pushIfAbsent; by_cases h : x ∈ l <;> simp [h]

/-- Pushing preserves the existing members. -/
theorem mem_pushIfAbsent_of_mem (l : List JSON) (x y : JSON) (h : y ∈ l) :
    y ∈ pushIfAbsent l x := by
  unfold pushIfAbsent; by_cases hx : x ∈ l <;> simp [hx, h]

/-- A guarded push never duplicates: afterwards the pushed element occurs
once if it was absent, and exactly as often as before otherwise. -/
theorem countJSON_pushIfAbsent_self (l : List JSON) (x : JSON) :
    countJSON (pushIfAbsent l x) x = max 1 (countJSON l x) := by
  unfold pushIfAbsent countJSON
  by_cases h : x ∈ l
  · have hpos : 0 < l.countP (fun j => decide (j = x)) :=
      List.countP_pos_iff.mpr ⟨x, h, by simp⟩
    rw [if_pos h]
    exact (Nat.max_eq_right hpos).symm
  · have hzero : l.countP (fun j => decide (j = x)) = 0 :=
      List.countP_eq_zero.mpr (fun a ha => by
        simp only [decide_eq_true_eq]
        intro he; exact h (he ▸ ha))
    rw [if_neg h]
    simp [List.countP_append, hzero, List.countP_cons]

/-- A guarded push leaves the multiplicity of every other element
unchanged. -/
theorem countJSON_pushIfAbsent_ne (l : List JSON) (x y : JSON) (h : y ≠ x) :
    countJSON (pushIfAbsent l x) y = countJSON l y := by
  unfold pushIfAbsent countJSON
  by_cases hx : x ∈ l
  · simp [hx]
  · simp [hx, List.countP_append, Ne.symm h]

/-- C5: every presentation built by `constructPresentation` (the builder
behind `presentationFrom`) has `https://www.w3.org/2018/credentials/v1` in
its `@context` and `VerifiablePresentation` in its `type`; whenever a
presentation submission is embedded, `type` also contains
`PresentationSubmission` and `@context` also contains
`https://identity.foundation/presentation-exchange/submission/v1`; and none
of these additions duplicates an element: each constant occurs
`max 1 (its multiplicity in the normalised base payload)` times. -/
theorem C5_construct_presentation_context_and_type (selectedCredentials : List JSON)
    (ps : Option PresentationSubmission) (holderDID : Option String)
    (base : Option BasePresentationPayload) :
    JSON.str "https://www.w3.org/2018/credentials/v1" ∈
      (constructPresentation selectedCredentials ps holderDID base).context ∧
    JSON.str "VerifiablePresentation" ∈
      (constructPresentation selectedCredentials ps holderDID base).type ∧
    (ps.isSome = true →
      JSON.str "PresentationSubmission" ∈
        (constructPresentation selectedCredentials ps holderDID base).type ∧
      JSON.str "https://identity.foundation/presentation-exchange/submission/v1" ∈
        (constructPresentation selectedCredentials ps holderDID base).context) ∧
    countJSON (constructPresentation selectedCredentials ps holderDID base).context
        (JSON.str "https://www.w3.org/2018/credentials/v1") =
      max 1 (countJSON (baseContextList base) (JSON.str "https://www.w3.org/2018/credentials/v1")) ∧
    countJSON (constructPresentation selectedCredentials ps holderDID base).type
        (JSON.str "VerifiablePresentation") =
      max 1 (countJSON (baseTypeList base) (JSON.str "VerifiablePresentation")) ∧
    (ps.isSome = true →
      countJSON (constructPresentation selectedCredentials ps holderDID base).type
          (JSON.str "PresentationSubmission") =
        max 1 (countJSON (baseTypeList base) (JSON.str "PresentationSubmission")) ∧
      countJSON (constructPresentation selectedCredentials ps holderDID base).context
          (JSON.str "https://identity.foundation/presentation-exchange/submission/v1") =
        max 1 (countJSON (baseContextList base)
          (JSON.str "https://identity.foundation/presentation-exchange/submission/v1"))) := by
  by_cases hps : ps.isSome = true
  · have hctx : (constructPresentation selectedCredentials ps holderDID base).context =
        pushIfAbsent (pushIfAbsent (baseContextList base)
            (JSON.str "https://www.w3.org/2018/credentials/v1"))
          (JSON.str "https://identity.foundation/presentation-exchange/submission/v1") := by
      simp [constructPresentation, hps]
    have htyp : (constructPresentation selectedCredentials ps holderDID base).type =
        pushIfAbsent (pushIfAbsent (baseTypeList base) (JSON.str "VerifiablePresentation"))
          (JSON.str "PresentationSubmission") := by
      simp [constructPresentation, hps]
    refine ⟨?_, ?_, fun _ => ⟨?_, ?_⟩, ?_, ?_, fun _ => ⟨?_, ?_⟩⟩
    · rw [hctx]; exact mem_pushIfAbsent_of_mem _ _ _ (mem_pushIfAbsent_self _ _)
    · rw [htyp]; exact mem_pushIfAbsent_of_mem _ _ _ (mem_pushIfAbsent_self _ _)
    · rw [htyp]; exact mem_pushIfAbsent_self _ _
    · rw [hctx]; exact mem_pushIfAbsent_self _ _
    · rw [hctx, countJSON_pushIfAbsent_ne _ _ _ (by decide), countJSON_pushIfAbsent_self]
    · rw [htyp, countJSON_pushIfAbsent_ne _ _ _ (by decide), countJSON_pushIfAbsent_self]
    · rw [htyp, countJSON_pushIfAbsent_self, countJSON_pushIfAbsent_ne _ _ _ (by decide)]
    · rw [hctx, countJSON_pushIfAbsent_self, countJSON_pushIfAbsent_ne _ _ _ (by decide)]
  · have hfalse : ps.isSome = false := by simpa using hps
    have hctx : (constructPresentation selectedCredentials ps holderDID base).context =
        pushIfAbsent (baseContextList base)
          (JSON.str "https://www.w3.org/2018/credentials/v1") := by
      simp [constructPresentation, hfalse]
    have htyp : (constructPresentation selectedCredentials ps holderDID base).type =
        pushIfAbsent (baseTypeList base) (JSON.str "VerifiablePresentation") := by
      simp [constructPresentation, hfalse]
    refine ⟨?_, ?_, fun hh => absurd hh (by simp [hfalse]), ?_, ?_,
      fun hh => absurd hh (by simp [hfalse])⟩
    · rw [hctx]; exact mem_pushIfAbsent_self _ _
    · rw [htyp]; exact mem_pushIfAbsent_self _ _
    · rw [hctx, countJSON_pushIfAbsent_self]
    · rw [htyp, countJSON_pushIfAbsent_self]

/-- C5 witness: the theorem applied to a concrete call embedding a
submission over a base payload that already carries the credentials
context. -/
theorem C5_witness :
    (some demoSubmission).isSome = true ∧
    JSON.str "VerifiablePresentation" ∈
      (constructPresentation [vcS1] (some demoSubmission) (some "did:example:holder")
        (some demoBasePayload)).type ∧
    JSON.str "PresentationSubmission" ∈
      (constructPresentation [vcS1] (some demoSubmission) (some "did:example:holder")
        (some demoBasePayload)).type :=
  ⟨rfl,
   (C5_construct_presentation_context_and_type [vcS1] (some demoSubmission)
      (some "did:example:holder") (some demoBasePayload)).2.1,
   ((C5_construct_presentation_context_and_type [vcS1] (some demoSubmission)
      (some "did:example:holder") (some demoBasePayload)).2.2.1 rfl).1⟩

/-- C6: `evaluateCredentials` returns `areRequiredCredentialsPresent =
error` whenever the evaluation yields no submission value or an empty
`descriptor_map`; otherwise it returns the status and errors computed by a
fresh `selectFrom` run over the same internal definition, wrapped
credentials and opts. -/
theorem C6_evaluate_credentials_status (core : EvalCore) (selectFromCore : SelectCore)
    (wrapVcs : WrapVcs) (toInternalPd : ToInternalPd) (uuid : String) (st : PEXState)
    (pd : PresentationDefinition) (vcs : List JSON) (opts : EvalOpts) :
    (((wrapperEvaluate core newEvaluationClientWrapper uuid (toInternalPd pd)
          (wrapVcs vcs) opts).value = none ∨
      (∃ sub, (wrapperEvaluate core newEvaluationClientWrapper uuid (toInternalPd pd)
          (wrapVcs vcs) opts).value = some sub ∧ sub.descriptor_map = [])) →
      (evaluateCredentials core selectFromCore wrapVcs toInternalPd uuid st pd vcs
        opts).1.areRequiredCredentialsPresent = Status.error) ∧
    (∀ sub, (wrapperEvaluate core newEvaluationClientWrapper uuid (toInternalPd pd)
        (wrapVcs vcs) opts).value = some sub → sub.descriptor_map ≠ [] →
      (evaluateCredentials core selectFromCore wrapVcs toInternalPd uuid st pd vcs
          opts).1.areRequiredCredentialsPresent =
        (selectFromCore (toInternalPd pd) (wrapVcs vcs) opts).areRequiredCredentialsPresent ∧
      (evaluateCredentials core selectFromCore wrapVcs toInternalPd uuid st pd vcs
          opts).1.errors =
        (selectFromCore (toInternalPd pd) (wrapVcs vcs) opts).errors) := by
  constructor
  · intro h
    rcases h with h | ⟨sub, hsub, hempty⟩
    · simp [evaluateCredentials, h]
    · simp [evaluateCredentials, hsub, hempty]
  · intro sub hsub hne
    have hlen : sub.descriptor_map.length ≠ 0 := by
      simpa [List.length_eq_zero] using hne
    simp [evaluateCredentials, hsub, hlen]

/-- C6 witness: the theorem applied to concrete cores — with a submission
present the status comes from the `selectFrom` core (`warn` here), and with
none it is `error`. -/
theorem C6_witness :
    (∀ sub, (wrapperEvaluate demoEvalCore newEvaluationClientWrapper "uuid-1"
        (pdPreferred) [vcS1] {}).value = some sub → sub.descriptor_map ≠ [] →
      (evaluateCredentials demoEvalCore demoSelectCore id id "uuid-1" {} pdPreferred [vcS1]
          {}).1.areRequiredCredentialsPresent =
        (demoSelectCore pdPreferred [vcS1] {}).areRequiredCredentialsPresent ∧
      (evaluateCredentials demoEvalCore demoSelectCore id id "uuid-1" {} pdPreferred [vcS1]
          {}).1.errors = (demoSelectCore pdPreferred [vcS1] {}).errors) ∧
    (evaluateCredentials demoEvalCore demoSelectCore id id "uuid-1" {} pdPreferred [vcS1]
        {}).1.areRequiredCredentialsPresent = Status.warn :=
  ⟨(C6_evaluate_credentials_status demoEvalCore demoSelectCore id id "uuid-1" {}
      pdPreferred [vcS1] {}).2,
   by
    have h := (C6_evaluate_credentials_status demoEvalCore demoSelectCore id id "uuid-1" {}
      pdPreferred [vcS1] {}).2 demoSubmission rfl (by decide)
    exact h.1.trans rfl⟩

/-- C9: `evaluateCredentials` is deterministic — two runs over equal
definitions, credential lists and opts, from arbitrary (possibly different)
instance states and with arbitrary (possibly different) UUID draws, produce
identical results except for the submission `id`, which carries the UUID:
in particular the `descriptor_map` contents, `definition_id`, errors,
warnings, credentials and aggregate status coincide. -/
theorem C9_evaluate_credentials_deterministic (core : EvalCore)
    (selectFromCore : SelectCore) (wrapVcs : WrapVcs) (toInternalPd : ToInternalPd)
    (u1 u2 : String) (st1 st2 : PEXState)
    (pd : PresentationDefinition) (vcs : List JSON) (opts : EvalOpts) :
    ((evaluateCredentials core selectFromCore wrapVcs toInternalPd u1 st1 pd vcs
        opts).1.value.map (fun v => v.descriptor_map)) =
      ((evaluateCredentials core selectFromCore wrapVcs toInternalPd u2 st2 pd vcs
        opts).1.value.map (fun v => v.descriptor_map)) ∧
    ((evaluateCredentials core selectFromCore wrapVcs toInternalPd u1 st1 pd vcs
        opts).1.value.map (fun v => v.definition_id)) =
      ((evaluateCredentials core selectFromCore wrapVcs toInternalPd u2 st2 pd vcs
        opts).1.value.map (fun v => v.definition_id)) ∧
    (evaluateCredentials core selectFromCore wrapVcs toInternalPd u1 st1 pd vcs
        opts).1.errors =
      (evaluateCredentials core selectFromCore wrapVcs toInternalPd u2 st2 pd vcs
        opts).1.errors ∧
    (evaluateCredentials core selectFromCore wrapVcs toInternalPd u1 st1 pd vcs
        opts).1.warnings =
      (evaluateCredentials core selectFromCore wrapVcs toInternalPd u2 st2 pd vcs
        opts).1.warnings ∧
    (evaluateCredentials core selectFromCore wrapVcs toInternalPd u1 st1 pd vcs
        opts).1.verifiableCredential =
      (evaluateCredentials core selectFromCore wrapVcs toInternalPd u2 st2 pd vcs
        opts).1.verifiableCredential ∧
    (evaluateCredentials core selectFromCore wrapVcs toInternalPd u1 st1 pd vcs
        opts).1.areRequiredCredentialsPresent =
      (evaluateCredentials core selectFromCore wrapVcs toInternalPd u2 st2 pd vcs
        opts).1.areRequiredCredentialsPresent := by
  cases hdm : (core newEvaluationClientWrapper.results (toInternalPd pd) (wrapVcs vcs)
      opts).descriptor_map with
  | none =>
      refine ⟨?_, ?_, ?_, ?_, ?_, ?_⟩ <;>
        simp [evaluateCredentials, wrapperEvaluate, hdm]
  | some dm =>
      by_cases hlen : dm.length ≠ 0 <;>
        refine ⟨?_, ?_, ?_, ?_, ?_, ?_⟩ <;>
          simp [evaluateCredentials, wrapperEvaluate, hdm, hlen]

/-- C7: `evaluatePresentation` throws (returns `Except.error`) if and only
if the wrapped presentation embeds no `presentation_submission`,
`opts.presentationSubmission` is not provided, and
`opts.generatePresentationSubmission` does not resolve to `true` (it
defaults to whether `opts.presentationSubmission` is provided); constraint
failures are reported inside the returned `EvaluationResults` of the `ok`
branch and never cause an exception. -/
theorem C7_evaluate_presentation_throw_iff (core : EvalCore) (selectFromCore : SelectCore)
    (wrapVp : WrapVp) (toInternalPd : ToInternalPd) (uuid : String) (st : PEXState)
    (pd : PresentationDefinition) (presentation : JSON) (opts : EvalOpts) :
    (evaluatePresentation core selectFromCore wrapVp toInternalPd uuid st pd presentation
        opts).toOption = none ↔
      ((wrapVp presentation).presentation.presentation_submission = none ∧
       opts.presentationSubmission = none ∧
       opts.generatePresentationSubmission.getD opts.presentationSubmission.isSome = false) := by
  cases hops : opts.presentationSubmission with
  | some ps =>
      simp only [evaluatePresentation, hops]
      simp [Except.toOption]
  | none =>
      cases hemb : (wrapVp presentation).presentation.presentation_submission with
      | some ps =>
          simp only [evaluatePresentation, hops, hemb]
          simp [Except.toOption]
      | none =>
          cases hgen : opts.generatePresentationSubmission with
          | some b =>
              cases b <;>
                · simp only [evaluatePresentation, hops, hemb, hgen]
                  simp [Except.toOption]
          | none =>
              simp only [evaluatePresentation, hops, hemb, hgen]
              simp [Except.toOption]

/-- C8 counterexample: `validateDefinition` does not return a
ValidationReport for every input object — when version discovery reports an
error (an object recognisable as neither v1 nor v2), the method throws that
error (`if (result.error) throw result.error`, line 330 of `PEX.ts`)
instead of reporting through the validators' pass/fail output. -/
theorem C8_counterexample :
    validateDefinition demoDiscoveryError demoBundle demoBundle pdPreferred =
      Except.error "This is not a valid PresentationDefinition" := rfl

/-- C8 (amended): whenever version discovery reports no error,
`validateDefinition` returns the ValidationReport of the matching validator
bundle (the v1 bundle exactly when the discovered version is v1, the v2
bundle otherwise) without throwing — so a malformed-but-version-recognisable
definition is reported through the validators' pass/fail output; when
discovery reports an error, the method throws that error. -/
theorem C8_amended_validate_definition (discovery : VersionDiscovery)
    (v1Bundle v2Bundle : ValidationBundle) (pd : PresentationDefinition) :
    ((discovery pd).error = none →
      validateDefinition discovery v1Bundle v2Bundle pd =
        Except.ok (if (discovery pd).version = some PEVersion.v1 then v1Bundle pd
                   else v2Bundle pd)) ∧
    (∀ e, (discovery pd).error = some e →
      validateDefinition discovery v1Bundle v2Bundle pd = Except.error e) := by
  constructor
  · intro h
    simp only [validateDefinition, h]
    by_cases hv : (discovery pd).version = some PEVersion.v1 <;> simp [hv]
  · intro e h
    simp [validateDefinition, h]

/-- C8 witness: the amended theorem applied to a discovery recognising the
definition as v1. -/
theorem C8_amended_witness :
    (demoDiscoveryV1 pdPreferred).error = none ∧
    validateDefinition demoDiscoveryV1 demoBundle demoBundle pdPreferred =
      Except.ok (if (demoDiscoveryV1 pdPreferred).version = some PEVersion.v1
                 then demoBundle pdPreferred else demoBundle pdPreferred) :=
  ⟨rfl,
   (C8_amended_validate_definition demoDiscoveryV1 demoBundle demoBundle pdPreferred).1 rfl⟩

/-- C10: `selectFrom` and `evaluatePresentation` deep-copy the
caller-supplied credential list (resp. presentation) before evaluation, so
the objects the caller passed in are unchanged after the call: for every
wrapper behaviour that writes only to the cells it is handed (which is what
limit disclosure does when it replaces credentials internally), every cell
the caller passed in still holds its original value afterwards, because the
wrapper only ever receives the freshly allocated copies. -/
theorem C10_deep_copy_protects_caller (wrapperSelectFrom : SelectCoreHeap)
    (wrapperEvaluateFn : EvalCoreHeap) (s1 s2 : Store) (credAddrs : List Nat)
    (presentationAddr : Nat)
    (hframeSel : ∀ st addrs a, a ∉ addrs → ((wrapperSelectFrom st addrs).2).mem a = st.mem a)
    (hframeEval : ∀ st ad a, a ≠ ad → ((wrapperEvaluateFn st ad).2).mem a = st.mem a)
    (hvalid : ∀ a ∈ credAddrs, a < s1.next)
    (hvalidp : presentationAddr < s2.next) :
    (∀ a ∈ credAddrs,
      ((selectFromHeap wrapperSelectFrom s1 credAddrs).2).mem a = s1.mem a) ∧
    ((evaluatePresentationHeap wrapperEvaluateFn s2 presentationAddr).2).mem
        presentationAddr = s2.mem presentationAddr := by
  constructor
  · intro a ha
    have hlt : a < s1.next := hvalid a ha
    have hnotin : a ∉ (allocCopies s1 credAddrs).2 := by
      intro hmem
      simp only [allocCopies, List.mem_map, List.mem_range] at hmem
      obtain ⟨i, _, heq⟩ := hmem
      omega
    have hframe := hframeSel (allocCopies s1 credAddrs).1 (allocCopies s1 credAddrs).2 a hnotin
    calc ((selectFromHeap wrapperSelectFrom s1 credAddrs).2).mem a
        = ((allocCopies s1 credAddrs).1).mem a := hframe
      _ = s1.mem a := by
          simp only [allocCopies]
          rw [if_neg (by omega)]
  · have haddr : (allocCopies s2 [presentationAddr]).2.getD 0 0 = s2.next := by
      simp [allocCopies]
    have hne : presentationAddr ≠ (allocCopies s2 [presentationAddr]).2.getD 0 0 := by
      rw [haddr]; omega
    have hframe := hframeEval (allocCopies s2 [presentationAddr]).1
      ((allocCopies s2 [presentationAddr]).2.getD 0 0) presentationAddr hne
    calc ((evaluatePresentationHeap wrapperEvaluateFn s2 presentationAddr).2).mem
          presentationAddr
        = ((allocCopies s2 [presentationAddr]).1).mem presentationAddr := hframe
      _ = s2.mem presentationAddr := by
          simp only [allocCopies]
          rw [if_neg (by simp; omega)]

/-- C10 witness: the theorem applied to wrapper behaviours that overwrite
every cell they are handed, over the store holding the S1 credential in
cell 0 — the caller's cell still holds the credential afterwards. -/
theorem C10_witness :
    ((selectFromHeap overwritingSelectCoreHeap demoStore [0]).2).mem 0 = vcS1 ∧
    ((evaluatePresentationHeap overwritingEvalCoreHeap demoStore 0).2).mem 0 = vcS1 := by
  have h := C10_deep_copy_protects_caller overwritingSelectCoreHeap overwritingEvalCoreHeap
    demoStore demoStore [0] 0
    (fun st addrs a ha => by simp [overwritingSelectCoreHeap, ha])
    (fun st ad a ha => by simp [overwritingEvalCoreHeap, ha])
    (by intro a ha; simp at ha; subst ha; decide)
    (by decide)
  exact ⟨(h.1 0 (by simp)).trans rfl, h.2.trans rfl⟩

/-- A key write at a path leaves every other top-level key unchanged. -/
theorem getField_setAtPath_key_ne (acc : JSON) (a : String) (rest : List PathComp)
    (v : JSON) (b : String) (h : b ≠ a) :
    getField (setAtPath acc (PathComp.key a :: rest) v) b = getField acc b := by
  unfold setAtPath
  exact getField_setField_ne _ _ _ _ h

/-- A key write at a path makes the written top-level key present. -/
theorem getField_setAtPath_key_isSome (acc : JSON) (a : String) (rest : List PathComp)
    (v : JSON) (hwf : isObjWF acc = true) :
    (getField (setAtPath acc (PathComp.key a :: rest) v) a).isSome = true := by
  unfold setAtPath
  rw [getField_setField_self _ _ _ hwf]
  rfl

/-- Key writes preserve object well-formedness. -/
theorem isObjWF_setAtPath_key (acc : JSON) (a : String) (rest : List PathComp)
    (v : JSON) (hwf : isObjWF acc = true) :
    isObjWF (setAtPath acc (PathComp.key a :: rest) v) = true := by
  unfold setAtPath
  exact isObjWF_setField _ _ _ hwf

/-- An index write on a well-formed object is a no-op. -/
theorem setAtPath_idx_on_obj (acc : JSON) (n : Nat) (rest : List PathComp) (v : JSON)
    (hwf : isObjWF acc = true) :
    setAtPath acc (PathComp.idx n :: rest) v = acc := by
  unfold setAtPath
  rw [if_neg]
  simp [isArr_of_isObjWF acc hwf]

/-- Writing under a top-level key other than `credentialSubject` does not
change the subject view. -/
theorem subjGet_setAtPath_key_ne (acc : JSON) (a : String) (rest : List PathComp)
    (v : JSON) (k : String) (ha : a ≠ "credentialSubject") :
    subjGet (setAtPath acc (PathComp.key a :: rest) v) k = subjGet acc k := by
  unfold subjGet
  rw [getField_setAtPath_key_ne _ _ _ _ _ (Ne.symm ha)]

/-- A path that does not start at `credentialSubject` names no subject
claim. -/
theorem subjClaimKey_key_ne (a : String) (rest : List PathComp)
    (ha : a ≠ "credentialSubject") :
    subjClaimKey (PathComp.key a :: rest) = none := by
  cases rest with
  | nil => rfl
  | cons c r2 =>
      cases c with
      | key k2 => simp [subjClaimKey, ha]
      | idx n => rfl

/-- Writing a subject claim: afterwards the subject view has exactly the
written key in addition to the previous ones. -/
theorem subjGet_setAtPath_subject (acc : JSON) (k2 : String) (r2 : List PathComp)
    (v : JSON) (k : String) (hwf : isObjWF acc = true)
    (hwfsub : ∀ w, getField acc "credentialSubject" = some w → isObjWF w = true) :
    ((subjGet (setAtPath acc
        (PathComp.key "credentialSubject" :: PathComp.key k2 :: r2) v) k).isSome = true ↔
      (k = k2 ∨ (subjGet acc k).isSome = true)) := by
  have hinner : isObjWF (match getField acc "credentialSubject" with
      | some w => w
      | none => JSON.onil) = true := by
    cases hcs : getField acc "credentialSubject" with
    | some w => exact hwfsub w hcs
    | none => rfl
  unfold subjGet setAtPath
  rw [getField_setField_self _ _ _ hwf]
  simp only [Option.getD_some]
  unfold setAtPath
  by_cases hk : k = k2
  · subst hk
    rw [getField_setField_self _ _ _ hinner]
    simp
  · rw [getField_setField_ne _ _ _ _ hk]
    cases hcs : getField acc "credentialSubject" with
    | some w => simp [hcs, hk]
    | none => simp [hcs, hk, getField]

/-- Writing a subject claim keeps the subject well formed. -/
theorem subjWF_setAtPath_subject (acc : JSON) (k2 : String) (r2 : List PathComp)
    (v : JSON) (hwf : isObjWF acc = true)
    (hwfsub : ∀ w, getField acc "credentialSubject" = some w → isObjWF w = true) :
    ∀ w, getField (setAtPath acc
        (PathComp.key "credentialSubject" :: PathComp.key k2 :: r2) v)
        "credentialSubject" = some w → isObjWF w = true := by
  have hinner : isObjWF (match getField acc "credentialSubject" with
      | some w => w
      | none => JSON.onil) = true := by
    cases hcs : getField acc "credentialSubject" with
    | some w => exact hwfsub w hcs
    | none => rfl
  intro w hw
  unfold setAtPath at hw
  rw [getField_setField_self _ _ _ hwf] at hw
  cases hw
  unfold setAtPath
  exact isObjWF_setField _ _ _ hinner

/-- The envelope fold preserves object well-formedness. -/
theorem isObjWF_mandatoryFold (vc : JSON) :
    ∀ (ks : List String) (acc : JSON), isObjWF acc = true →
      isObjWF (ks.foldl (mandatoryStep vc) acc) = true := by
  intro ks
  induction ks with
  | nil => intro acc h; simpa using h
  | cons k0 t ih =>
      intro acc h
      rw [List.foldl_cons]
      refine ih _ ?_
      unfold mandatoryStep
      cases h0 : getField vc k0 with
      | some v => exact isObjWF_setField _ _ _ h
      | none => exact h

/-- The envelope fold writes exactly the listed fields that the original
carries, and leaves everything else as in the accumulator. -/
theorem getField_mandatoryFold (vc : JSON) :
    ∀ (ks : List String) (acc : JSON) (k : String), isObjWF acc = true →
      getField (ks.foldl (mandatoryStep vc) acc) k =
        if k ∈ ks ∧ (getField vc k).isSome = true then getField vc k
        else getField acc k := by
  intro ks
  induction ks with
  | nil =>
      intro acc k _
      simp
  | cons k0 t ih =>
      intro acc k hwf
      have hwf2 : isObjWF (mandatoryStep vc acc k0) = true := by
        unfold mandatoryStep
        cases h0 : getField vc k0 with
        | some v => exact isObjWF_setField _ _ _ hwf
        | none => exact hwf
      rw [List.foldl_cons, ih _ k hwf2]
      by_cases hv : (getField vc k).isSome = true
      · by_cases ht : k ∈ t
        · simp [ht, hv, List.mem_cons]
        · simp only [ht, hv, and_true, false_and, if_false, and_false]
          by_cases hk0 : k = k0
          · subst hk0
            rw [if_pos (by simp [List.mem_cons, hv])]
            unfold mandatoryStep
            cases h0 : getField vc k with
            | some v => rw [getField_setField_self _ _ _ hwf]
            | none => rw [h0] at hv; cases hv
          · rw [if_neg (by simp [List.mem_cons, hk0, ht])]
            unfold mandatoryStep
            cases h0 : getField vc k0 with
            | some v => exact getField_setField_ne _ _ _ _ hk0
            | none => rfl
      · have hvf : (getField vc k).isSome = false := by simpa using hv
        rw [if_neg (by simp [hvf]), if_neg (by simp [hvf])]
        unfold mandatoryStep
        cases h0 : getField vc k0 with
        | some v =>
            by_cases hk0 : k = k0
            · subst hk0; rw [h0] at hvf; simp at hvf
            · exact getField_setField_ne _ _ _ _ hk0
        | none => rfl

/-- Characterisation of the disclosure fold: it keeps the accumulator a
well-formed object, the subject view gains exactly the subject claims named
by resolving disclosed paths, top-level keys only arise from the
accumulator or from heads of resolving paths, and accumulator keys are
never deleted. -/
theorem discloseFold_spec (vc : JSON) :
    ∀ (ps : List (List PathComp)) (acc : JSON),
      isObjWF acc = true →
      (∀ w, getField acc "credentialSubject" = some w → isObjWF w = true) →
      (∀ p ∈ ps, pathShapeOK p = true) →
      isObjWF (ps.foldl (discloseStep vc) acc) = true ∧
      (∀ w, getField (ps.foldl (discloseStep vc) acc) "credentialSubject" = some w →
        isObjWF w = true) ∧
      (∀ k, (subjGet (ps.foldl (discloseStep vc) acc) k).isSome = true ↔
        ((subjGet acc k).isSome = true ∨
          ∃ p, p ∈ ps ∧ subjClaimKey p = some k ∧ (getAtPath vc p).isSome = true)) ∧
      (∀ k, (getField (ps.foldl (discloseStep vc) acc) k).isSome = true →
        ((getField acc k).isSome = true ∨
          ∃ p, p ∈ ps ∧ headKey p = some k ∧ (getAtPath vc p).isSome = true)) ∧
      (∀ k, (getField acc k).isSome = true →
        (getField (ps.foldl (discloseStep vc) acc) k).isSome = true) := by
  intro ps
  induction ps with
  | nil =>
      intro acc hwf hwfsub _
      refine ⟨hwf, hwfsub, ?_, ?_, ?_⟩ <;> simp
  | cons p t ih =>
      intro acc hwf hwfsub hshape
      have hshp : pathShapeOK p = true := hshape p (by simp)
      have hshapet : ∀ q ∈ t, pathShapeOK q = true := fun q hq => hshape q (by simp [hq])
      have hstep :
          isObjWF (discloseStep vc acc p) = true ∧
          (∀ w, getField (discloseStep vc acc p) "credentialSubject" = some w →
            isObjWF w = true) ∧
          (∀ k, (subjGet (discloseStep vc acc p) k).isSome = true ↔
            ((subjGet acc k).isSome = true ∨
              (subjClaimKey p = some k ∧ (getAtPath vc p).isSome = true))) ∧
          (∀ k, (getField (discloseStep vc acc p) k).isSome = true →
            ((getField acc k).isSome = true ∨
              (headKey p = some k ∧ (getAtPath vc p).isSome = true))) ∧
          (∀ k, (getField acc k).isSome = true →
            (getField (discloseStep vc acc p) k).isSome = true) := by
        cases hres : getAtPath vc p with
        | none =>
            have hid : discloseStep vc acc p = acc := by unfold discloseStep; rw [hres]
            rw [hid]
            refine ⟨hwf, hwfsub, ?_, ?_, ?_⟩
            · intro k; simp [hres]
            · intro k h; exact Or.inl h
            · intro k h; exact h
        | some v =>
            have hid : discloseStep vc acc p = setAtPath acc p v := by
              unfold discloseStep; rw [hres]
            rw [hid]
            cases p with
            | nil => simp [pathShapeOK] at hshp
            | cons c rest =>
                cases c with
                | idx n =>
                    rw [setAtPath_idx_on_obj acc n rest v hwf]
                    refine ⟨hwf, hwfsub, ?_, ?_, ?_⟩
                    · intro k; simp [subjClaimKey]
                    · intro k h; exact Or.inl h
                    · intro k h; exact h
                | key a =>
                    by_cases ha : a = "credentialSubject"
                    · subst ha
                      cases rest with
                      | nil => simp [pathShapeOK] at hshp
                      | cons c2 r2 =>
                          cases c2 with
                          | idx m => simp [pathShapeOK] at hshp
                          | key k2 =>
                              refine ⟨isObjWF_setAtPath_key acc _ _ v hwf,
                                subjWF_setAtPath_subject acc k2 r2 v hwf hwfsub, ?_, ?_, ?_⟩
                              · intro k
                                rw [subjGet_setAtPath_subject acc k2 r2 v k hwf hwfsub]
                                have hck : subjClaimKey (PathComp.key "credentialSubject" ::
                                    PathComp.key k2 :: r2) = some k2 := by
                                  simp [subjClaimKey]
                                rw [hck]
                                simp only [hres, Option.isSome_some, and_true,
                                  Option.some.injEq]
                                constructor
                                · rintro (rfl | h)
                                  · exact Or.inr rfl
                                  · exact Or.inl h
                                · rintro (h | rfl)
                                  · exact Or.inr h
                                  · exact Or.inl rfl
                              · intro k hk
                                by_cases hkc : k = "credentialSubject"
                                · subst hkc
                                  exact Or.inr ⟨rfl, by simp [hres]⟩
                                · rw [getField_setAtPath_key_ne acc _ _ v k hkc] at hk
                                  exact Or.inl hk
                              · intro k hk
                                by_cases hkc : k = "credentialSubject"
                                · subst hkc
                                  exact getField_setAtPath_key_isSome acc _ _ v hwf
                                · rw [getField_setAtPath_key_ne acc _ _ v k hkc]
                                  exact hk
                    · refine ⟨isObjWF_setAtPath_key acc a rest v hwf, ?_, ?_, ?_, ?_⟩
                      · intro w hw
                        rw [getField_setAtPath_key_ne acc a rest v _ (Ne.symm ha)] at hw
                        exact hwfsub w hw
                      · intro k
                        rw [subjGet_setAtPath_key_ne acc a rest v k ha]
                        simp [subjClaimKey_key_ne a rest ha]
                      · intro k hk
                        by_cases hka : k = a
                        · exact Or.inr ⟨by rw [hka]; rfl, by simp [hres]⟩
                        · rw [getField_setAtPath_key_ne acc a rest v k hka] at hk
                          exact Or.inl hk
                      · intro k hk
                        by_cases hka : k = a
                        · rw [hka]
                          exact getField_setAtPath_key_isSome acc a rest v hwf
                        · rw [getField_setAtPath_key_ne acc a rest v k hka]
                          exact hk
      obtain ⟨F1, F2, F3, F4, F5⟩ := hstep
      obtain ⟨G1, G2, G3, G4, G5⟩ := ih (discloseStep vc acc p) F1 F2 hshapet
      rw [List.foldl_cons]
      refine ⟨G1, G2, ?_, ?_, ?_⟩
      · intro k
        constructor
        · intro h
          rcases (G3 k).mp h with h2 | ⟨q, hq, h1, h2⟩
          · rcases (F3 k).mp h2 with h3 | h3
            · exact Or.inl h3
            · exact Or.inr ⟨p, List.mem_cons_self p t, h3.1, h3.2⟩
          · exact Or.inr ⟨q, List.mem_cons_of_mem p hq, h1, h2⟩
        · intro h
          rcases h with h | ⟨q, hq, h1, h2⟩
          · exact (G3 k).mpr (Or.inl ((F3 k).mpr (Or.inl h)))
          · rcases List.mem_cons.mp hq with rfl | hqt
            · exact (G3 k).mpr (Or.inl ((F3 k).mpr (Or.inr ⟨h1, h2⟩)))
            · exact (G3 k).mpr (Or.inr ⟨q, hqt, h1, h2⟩)
      · intro k hk
        rcases G4 k hk with h2 | ⟨q, hq, h1, h2⟩
        · rcases F4 k h2 with h3 | h3
          · exact Or.inl h3
          · exact Or.inr ⟨p, List.mem_cons_self p t, h3.1, h3.2⟩
        · exact Or.inr ⟨q, List.mem_cons_of_mem p hq, h1, h2⟩
      · intro k hk
        exact G5 k (F5 k hk)

/-- C2: when `limit_disclosure = required` succeeds — the proof type is in
the allow-list — the projected credential's subject contains **exactly** the
top-level claims named by the disclosed paths collected from
FilterEvaluation and PredicateRelatedField results that resolve in the
original credential; every top-level field of the projection is a mandatory
envelope field carried by the original or the head of a resolving disclosed
path; and the mandatory envelope fields of the original are all kept. -/
theorem C2_limit_disclosure_projection_exact (vc : JSON) (proofType : String)
    (suites : List String) (results : List HandlerCheckResult) (descIdx vcIdx : Nat)
    (paths : List (List PathComp))
    (hpaths : paths = (collectDisclosedPaths results descIdx vcIdx).map toPathComps)
    (hsuite : proofType ∈ suites)
    (hshape : ∀ p ∈ paths, pathShapeOK p = true) :
    limitDisclosure vc proofType suites paths =
      some (limitDisclosedCredential vc paths) ∧
    (∀ k, (subjGet (limitDisclosedCredential vc paths) k).isSome = true ↔
      ∃ p, p ∈ paths ∧ subjClaimKey p = some k ∧ (getAtPath vc p).isSome = true) ∧
    (∀ k, (getField (limitDisclosedCredential vc paths) k).isSome = true →
      ((k ∈ mandatoryFields ∧ (getField vc k).isSome = true) ∨
        ∃ p, p ∈ paths ∧ headKey p = some k ∧ (getAtPath vc p).isSome = true)) ∧
    (∀ k, k ∈ mandatoryFields → (getField vc k).isSome = true →
      (getField (limitDisclosedCredential vc paths) k).isSome = true) := by
  have hwfbase : isObjWF (mandatoryFields.foldl (mandatoryStep vc) JSON.onil) = true :=
    isObjWF_mandatoryFold vc mandatoryFields JSON.onil rfl
  have hbase : ∀ k, getField (mandatoryFields.foldl (mandatoryStep vc) JSON.onil) k =
      if k ∈ mandatoryFields ∧ (getField vc k).isSome = true then getField vc k
      else none := by
    intro k
    rw [getField_mandatoryFold vc mandatoryFields JSON.onil k rfl]
    rfl
  have hbasecs : getField (mandatoryFields.foldl (mandatoryStep vc) JSON.onil)
      "credentialSubject" = none := by
    rw [hbase, if_neg (fun h => absurd h.1 (by decide))]
  obtain ⟨P1, P2, P3, P4, P5⟩ := discloseFold_spec vc paths
    (mandatoryFields.foldl (mandatoryStep vc) JSON.onil) hwfbase
    (fun w hw => by rw [hbasecs] at hw; cases hw) hshape
  refine ⟨by simp [limitDisclosure, hsuite], ?_, ?_, ?_⟩
  · intro k
    have hsubbase : (subjGet (mandatoryFields.foldl (mandatoryStep vc) JSON.onil)
        k).isSome = false := by
      unfold subjGet
      rw [hbasecs]
      rfl
    unfold limitDisclosedCredential
    rw [P3 k, hsubbase]
    simp
  · intro k hk
    unfold limitDisclosedCredential at hk
    rcases P4 k hk with h2 | h3
    · rw [hbase k] at h2
      by_cases hc : k ∈ mandatoryFields ∧ (getField vc k).isSome = true
      · exact Or.inl hc
      · rw [if_neg hc] at h2; cases h2
    · exact Or.inr h3
  · intro k hmand hvc
    unfold limitDisclosedCredential
    apply P5
    rw [hbase k, if_pos ⟨hmand, hvc⟩]
    exact hvc

/-- C2 witness: the theorem applied to the S1 scenario — the BBS+ proof type
is allow-listed, the disclosed path collected from the age filter result is
`credentialSubject.age`, and the projection keeps `age`, drops `etc` and
drops the non-mandatory top-level `birthPlace`. -/
theorem C2_witness :
    limitDisclosure vcS1 "BbsBlsSignature2020" ["BbsBlsSignature2020"]
        [[PathComp.key "credentialSubject", PathComp.key "age"]] =
      some (limitDisclosedCredential vcS1
        [[PathComp.key "credentialSubject", PathComp.key "age"]]) ∧
    (subjGet (limitDisclosedCredential vcS1
        [[PathComp.key "credentialSubject", PathComp.key "age"]]) "age").isSome = true ∧
    ¬ (subjGet (limitDisclosedCredential vcS1
        [[PathComp.key "credentialSubject", PathComp.key "age"]]) "etc").isSome = true ∧
    ¬ (getField (limitDisclosedCredential vcS1
        [[PathComp.key "credentialSubject", PathComp.key "age"]])
        "birthPlace").isSome = true := by
  have h := C2_limit_disclosure_projection_exact vcS1 "BbsBlsSignature2020"
    ["BbsBlsSignature2020"] [ageFilterEntry] 0 0
    [[PathComp.key "credentialSubject", PathComp.key "age"]]
    (by decide) (by decide) (by decide)
  refine ⟨h.1, ?_, ?_, ?_⟩
  · exact (h.2.1 "age").mpr
      ⟨[PathComp.key "credentialSubject", PathComp.key "age"], by simp, rfl, by decide⟩
  · intro hx
    rcases (h.2.1 "etc").mp hx with ⟨p, hp, hck, _⟩
    simp at hp
    subst hp
    simp [subjClaimKey] at hck
  · intro hx
    rcases h.2.2.1 "birthPlace" hx with ⟨hmem, _⟩ | ⟨p, hp, hhk, _⟩
    · revert hmem; decide
    · simp at hp
      subst hp
      simp [headKey] at hhk
